import Mathlib

/-!
Verification development for the Refugee-Resource-Assistant repository.

The Python sources are shallowly embedded:
* strings are lists of characters (`Str`), matching Python `str`,
* Python floats are modelled as exact fractions (`Frac`, an integer
  numerator with a positive natural denominator, compared by
  cross-multiplication); all quantities the sources compute are finite
  sums/products of small decimals and ratios of natural numbers, so this
  is exact,
* the regular expressions of the source are hand-compiled into dedicated
  scanners whose doc comments cite the original pattern,
* the rapidfuzz similarity functions used by `search.fuzzy_score`
  (`fuzz.token_sort_ratio`, `fuzz.token_set_ratio`, `fuzz.partial_ratio`)
  are modelled from their documented indel/LCS-based semantics, scaled to
  [0,1] as the source divides by 100,
* Python's stable `list.sort` is modelled by a stable insertion sort,
* the ambient wall-clock time consumed by `search.is_open_now` is passed
  explicitly as a `Now` value (day name, hour, minute).
-/

/-- Strings are modelled as lists of unicode characters, matching Python
`str` (one element per code point). -/
abbrev Str := List Char

/-- Conversion from a Lean string literal to the model type. -/
def s2l (s : String) : Str := s.data

/-- Python whitespace characters (ASCII range; the sources only ever feed
ASCII text to `strip`/`split`). -/
def isSpaceCh (c : Char) : Bool :=
  c = ' ' || c = '\t' || c = '\n' || c = '\r' || c.toNat = 11 || c.toNat = 12

/-- Word character for the `\b` boundary of Python regexes: `[A-Za-z0-9_]`
(the patterns of this repository are applied to ASCII text). -/
def isWordCh (c : Char) : Bool := c.isAlpha || c.isDigit || c = '_'

/-- Python `str.lower` on the ASCII range (all text the sources lower-case
is ASCII apart from emoji, which `lower` leaves unchanged, as does this). -/
def pyLowerChar (c : Char) : Char :=
  if 65 ≤ c.toNat ∧ c.toNat ≤ 90 then Char.ofNat (c.toNat + 32) else c

/-- Python `str.lower`. -/
def pyLower (s : Str) : Str := s.map pyLowerChar

/-- Python `str.strip()`: remove leading and trailing whitespace. -/
def pyStrip (s : Str) : Str :=
  ((s.dropWhile isSpaceCh).reverse.dropWhile isSpaceCh).reverse

/-- `hasPre n h` holds when `n` is a leading segment of `h`. -/
def hasPre : Str → Str → Bool
  | [], _ => true
  | _ :: _, [] => false
  | a :: as, b :: bs => a = b && hasPre as bs

/-- Python substring containment `n in h`. -/
def containsSub (n : Str) : Str → Bool
  | [] => hasPre n []
  | c :: t => hasPre n (c :: t) || containsSub n t

/-- Helper for `replaceAll`, recursing on fuel (one unit per character of
the subject, which bounds the number of steps). -/
def replGo (pat rep : Str) : Nat → Str → Str
  | 0, s => s
  | _ + 1, [] => []
  | fuel + 1, c :: t =>
      if hasPre pat (c :: t) then rep ++ replGo pat rep fuel ((c :: t).drop pat.length)
      else c :: replGo pat rep fuel t

/-- Python `s.replace(pat, rep)`: left-to-right, non-overlapping (the
source only calls it with non-empty `pat`). -/
def replaceAll (s pat rep : Str) : Str := replGo pat rep s.length s

/-- Helper for `pySplit`, recursing on fuel. -/
def splitGo : Nat → Str → List Str
  | 0, _ => []
  | _ + 1, [] => []
  | fuel + 1, c :: t =>
      if isSpaceCh c then splitGo fuel t
      else ((c :: t).takeWhile (fun x => !isSpaceCh x)) ::
        splitGo fuel ((c :: t).dropWhile (fun x => !isSpaceCh x))

/-- Python `str.split()` with no argument: split on whitespace runs,
dropping empty pieces. -/
def pySplit (s : Str) : List Str := splitGo s.length s

/-- Python `" ".join(l)`. -/
def joinSp : List Str → Str
  | [] => []
  | [x] => x
  | x :: xs => x ++ ' ' :: joinSp xs

/-- Python string comparison `a <= b`: lexicographic by code point. -/
def strLe : Str → Str → Bool
  | [], _ => true
  | _ :: _, [] => false
  | a :: as, b :: bs => if a = b then strLe as bs else decide (a.toNat < b.toNat)

/-- Python `set(...)` modelled as first-occurrence deduplication (only the
membership view and the cardinality of the result are ever consumed). -/
def sdedup {α : Type} [DecidableEq α] (l : List α) : List α :=
  l.foldl (fun acc x => if x ∈ acc then acc else acc ++ [x]) []

/-- `get_bigrams` of `search.fuzzy_score`: the character 2-slices
`text[i:i+2]` for `i in range(len(text)-1)` (deduplicated at use sites). -/
def bigramsOf (s : Str) : List Str :=
  (List.range (s.length - 1)).map (fun i => (s.drop i).take 2)

/-! ### Exact fractions

Python floats are modelled exactly: every number the sources manipulate is
a finite sum of products of decimal constants and ratios of list lengths.
`Frac` is an unnormalized fraction with positive denominator; comparisons
cross-multiply, so no gcd normalization is ever needed. -/

/-- An exact fraction `n / d` with `d > 0`. -/
structure Frac where
  n : Int
  d : Nat
  dpos : 0 < d

instance : DecidableEq Frac := fun x y =>
  decidable_of_iff (x.n = y.n ∧ x.d = y.d) (by cases x; cases y; simp)

/-- Value-level order on fractions (cross multiplication). -/
def Frac.Le (x y : Frac) : Prop := x.n * (y.d : Int) ≤ y.n * (x.d : Int)

/-- Value-level strict order on fractions. -/
def Frac.Lt (x y : Frac) : Prop := x.n * (y.d : Int) < y.n * (x.d : Int)

instance (x y : Frac) : Decidable (x.Le y) := Int.decLe _ _

instance (x y : Frac) : Decidable (x.Lt y) := Int.decLt _ _

/-- Boolean `x <= y` on fractions. -/
def Frac.ble (x y : Frac) : Bool := decide (x.Le y)

/-- Boolean `x < y` on fractions. -/
def Frac.blt (x y : Frac) : Bool := decide (x.Lt y)

/-- Value equality of fractions (cross multiplication). -/
def Frac.beq (x y : Frac) : Bool := decide (x.n * (y.d : Int) = y.n * (x.d : Int))

/-- The fraction `num / den` (a denominator of 0 is clamped to 1; all
literal denominators in the embedding are positive, so the clamp is inert). -/
def mkF (num : Int) (den : Nat) : Frac :=
  ⟨num, max den 1, Nat.lt_of_lt_of_le Nat.one_pos (Nat.le_max_right den 1)⟩

/-- The fraction 0. -/
def fr0 : Frac := mkF 0 1

/-- The fraction 1. -/
def fr1 : Frac := mkF 1 1

/-- Exact addition of fractions. -/
def Frac.add (x y : Frac) : Frac :=
  ⟨x.n * (y.d : Int) + y.n * (x.d : Int), x.d * y.d, Nat.mul_pos x.dpos y.dpos⟩

/-- Exact multiplication of fractions. -/
def Frac.mul (x y : Frac) : Frac := ⟨x.n * y.n, x.d * y.d, Nat.mul_pos x.dpos y.dpos⟩

/-- Python `max(a, b)`: returns `b` exactly when `a < b`. -/
def pyMaxF (x y : Frac) : Frac := if x.blt y then y else x

/-- Python `min(a, b)`: returns `a` exactly when `a <= b`. -/
def pyMinF (x y : Frac) : Frac := if x.ble y then x else y

/-- Sum of a list of fractions (Python's repeated `score += ...`). -/
def sumF (l : List Frac) : Frac := l.foldl Frac.add fr0

theorem Frac.le_refl (x : Frac) : x.Le x := le_rfl

theorem Frac.le_total (x y : Frac) : x.Le y ∨ y.Le x :=
  Int.le_total (x.n * (y.d : Int)) (y.n * (x.d : Int))

theorem Frac.dpos' (x : Frac) : (0 : Int) < (x.d : Int) := by
  exact_mod_cast x.dpos

theorem Frac.le_trans {a b c : Frac} (h1 : a.Le b) (h2 : b.Le c) : a.Le c := by
  have hb := b.dpos'
  have h1' := mul_le_mul_of_nonneg_right h1 (le_of_lt c.dpos')
  have h2' := mul_le_mul_of_nonneg_right h2 (le_of_lt a.dpos')
  have key : (a.n * (c.d : Int)) * (b.d : Int) ≤ (c.n * (a.d : Int)) * (b.d : Int) := by
    nlinarith [h1', h2']
  exact le_of_mul_le_mul_right key hb

theorem Frac.add_le_add {a b c d : Frac} (h1 : a.Le c) (h2 : b.Le d) :
    (a.add b).Le (c.add d) := by
  have h1' := mul_le_mul_of_nonneg_right h1
    (le_of_lt (mul_pos b.dpos' d.dpos'))
  have h2' := mul_le_mul_of_nonneg_right h2
    (le_of_lt (mul_pos a.dpos' c.dpos'))
  show (a.n * (b.d : Int) + b.n * (a.d : Int)) * ((c.d * d.d : Nat) : Int) ≤
    (c.n * (d.d : Int) + d.n * (c.d : Int)) * ((a.d * b.d : Nat) : Int)
  push_cast
  nlinarith [h1', h2']

theorem Frac.not_le {x y : Frac} (h : ¬ x.Le y) : y.Le x := by
  rcases Frac.le_total x y with h' | h'
  · exact absurd h' h
  · exact h'

theorem Frac.lt_of_not_le {x y : Frac} (h : ¬ x.Le y) : y.Lt x := by
  exact Int.lt_of_not_ge h

/-! ### Stable sort

Python's `list.sort` (with or without `reverse=True`) is a stable sort:
records whose keys compare equal keep their original relative order. It is
modelled by a stable insertion sort parameterized by a boolean comparator
`keep a b` meaning "an `a` already in place may stay in front of an
incoming `b`". -/

/-- Insert `x` behind all current elements `y` with `keep y x`. -/
def stIns {α : Type} (keep : α → α → Bool) (x : α) : List α → List α
  | [] => [x]
  | y :: ys => if keep y x then y :: stIns keep x ys else x :: y :: ys

/-- Stable sort by a boolean comparator. -/
def stSort {α : Type} (keep : α → α → Bool) (l : List α) : List α :=
  l.foldl (fun acc x => stIns keep x acc) []

/-- Python `sorted` on a list of strings. -/
def sortStrs (l : List Str) : List Str := stSort strLe l

/-! ### rapidfuzz similarity model -/

/-- One inner step of the LCS dynamic-programming row update. -/
def lcsGo (c : Char) : List Char → List Nat → Nat → Nat → List Nat
  | [], _, _, _ => []
  | _ :: _, [], _, _ => []
  | b :: bs, p :: ps, diag, leftN =>
      let n := if c = b then diag + 1 else max leftN p
      n :: lcsGo c bs ps p n

/-- Next row of the LCS table for one character of the first string. -/
def lcsNextRow (c : Char) (b : Str) (prev : List Nat) : List Nat :=
  match prev with
  | [] => []
  | p0 :: ps => 0 :: lcsGo c b ps p0 0

/-- Length of a longest common subsequence of two strings. -/
def lcsLen (a b : Str) : Nat :=
  (a.foldl (fun row c => lcsNextRow c b row) (List.replicate (b.length + 1) 0)).getLastD 0

/-- rapidfuzz `fuzz.ratio` scaled to [0,1]: the normalized indel
similarity `2·LCS(a,b) / (|a|+|b|)` (1 when both strings are empty). -/
def indelSim (a b : Str) : Frac :=
  if a.length + b.length = 0 then fr1
  else mkF (2 * lcsLen a b : Nat) (a.length + b.length)

/-- rapidfuzz `fuzz.token_sort_ratio` scaled to [0,1]: indel similarity of
the whitespace tokens of each side, sorted and re-joined with spaces. -/
def tokSortSim (a b : Str) : Frac :=
  indelSim (joinSp (sortStrs (pySplit a))) (joinSp (sortStrs (pySplit b)))

/-- rapidfuzz `fuzz.token_set_ratio` scaled to [0,1]: with `sect` the
sorted joined token intersection and `d1`,`d2` the sorted joined token
differences, the maximum of the pairwise indel similarities of `sect`,
`strip(sect + " " + d1)` and `strip(sect + " " + d2)`; 0 when either side
has no tokens. -/
def tokSetSim (a b : Str) : Frac :=
  let ta := sdedup (pySplit a)
  let tb := sdedup (pySplit b)
  if ta = [] ∨ tb = [] then fr0
  else
    let sectS := joinSp (sortStrs (ta.filter (fun x => x ∈ tb)))
    let d1S := joinSp (sortStrs (ta.filter (fun x => x ∉ tb)))
    let d2S := joinSp (sortStrs (tb.filter (fun x => x ∉ ta)))
    let c1 := pyStrip (sectS ++ ' ' :: d1S)
    let c2 := pyStrip (sectS ++ ' ' :: d2S)
    pyMaxF (indelSim sectS c1) (pyMaxF (indelSim sectS c2) (indelSim c1 c2))

/-- Best indel similarity of the shorter string `s` against the windows of
its own length inside the longer string `l`. -/
def winBest (s l : Str) : Frac :=
  (List.range (l.length - s.length + 1)).foldl
    (fun acc i => pyMaxF acc (indelSim s ((l.drop i).take s.length))) fr0

/-- rapidfuzz `fuzz.partial_ratio` scaled to [0,1]: the optimal alignment
of the shorter string inside the longer one. -/
def alignSim (a b : Str) : Frac :=
  if a.length ≤ b.length then winBest a b else winBest b a

-- Sanity checks on the similarity model (tiny, concrete).
example : lcsLen (s2l "ab cd") (s2l "ab cd cd") = 5 := by decide
example : (indelSim (s2l "ab cd") (s2l "ab cd cd")).beq (mkF 10 13) = true := by decide
example : (tokSortSim (s2l "ab cd cd") (s2l "ab cd")).beq (mkF 10 13) = true := by decide
example : (tokSetSim (s2l "ab cd cd") (s2l "ab cd")).beq fr1 = true := by decide
example : (alignSim (s2l "ab cd") (s2l "ab cd cd")).beq fr1 = true := by decide
example : pySplit (s2l "  a bb  c ") = [s2l "a", s2l "bb", s2l "c"] := by decide
example : replaceAll (s2l "dental ab") (s2l "dental") (s2l "oral") = s2l "oral ab" := by decide
example : sortStrs [s2l "cd", s2l "ab", s2l "cd"] = [s2l "ab", s2l "cd", s2l "cd"] := by decide

/-! ### Data model

`Record` is the record shape produced by `data_loader.parse_blocks`
(every field of the Python dict initialised there). -/

/-- A time range `((start_hour, start_min), (end_hour, end_min))`. -/
abbrev TimeRange := (Nat × Nat) × (Nat × Nat)

/-- A parsed resource record (the dict built by `data_loader.parse_blocks`;
`hours` is a day-name-keyed mapping in insertion order). -/
structure Record where
  rid : Str
  name : Str
  address : Str
  phone : Str
  phoneDigits : Str
  website : Str
  zipCode : Str
  services : List Str
  servicesText : Str
  subcategories : List Str
  availabilityBadges : List Str
  languages : List Str
  hours : List (Str × List TimeRange)
  hoursText : Str
  searchBlob : Str
deriving DecidableEq

/-- The ambient wall-clock time consumed by `search.is_open_now`
(`datetime.now`): lowercase day name plus hour and minute. -/
structure Now where
  day : Str
  hour : Nat
  minute : Nat
deriving DecidableEq

/-- Word boundary `\b` at the start of the remainder `t` (the previous
character, if any, is accounted for by the scanners' `prevWord` flag). -/
def bdyAfter : Str → Bool
  | [] => true
  | c :: _ => !isWordCh c

/-- Match of the regex `\b(60\d{3})\b` at the head of the text. -/
def zipAt (t : Str) : Option Str :=
  match t with
  | c1 :: c2 :: a :: b :: c :: rest =>
      if c1 = '6' ∧ c2 = '0' ∧ a.isDigit ∧ b.isDigit ∧ c.isDigit ∧ bdyAfter rest then
        some [c1, c2, a, b, c]
      else none
  | _ => none

/-- Scanner for `re.search(r'\b(60\d{3})\b', t)`: first match wins;
`prevWord` tracks whether the previous character was a word character. -/
def zipScan (prevWord : Bool) : Str → Option Str
  | [] => none
  | c :: cs =>
      if !prevWord then
        match zipAt (c :: cs) with
        | some z => some z
        | none => zipScan (isWordCh c) cs
      else zipScan (isWordCh c) cs

/-- First match of the ZIP pattern `\b(60\d{3})\b` anywhere in the text. -/
def findZip (t : Str) : Option Str := zipScan false t

/-- First alternative of a word-alternation regex matching at the head of
`t` (with the closing `\b`); alternatives are tried in pattern order. -/
def altAt (alts : List Str) (t : Str) : Option Str :=
  alts.find? (fun a => hasPre a t && bdyAfter (t.drop a.length))

/-- Scanner for `re.search(r'\b(alt1|alt2|...)\b', t)`: leftmost position
first, then alternation order (all alternatives start with a word
character, so the leading `\b` is exactly "previous char not a word
char"). -/
def altScan (alts : List Str) (prevWord : Bool) : Str → Option Str
  | [] => none
  | c :: cs =>
      if !prevWord then
        match altAt alts (c :: cs) with
        | some a => some a
        | none => altScan alts (isWordCh c) cs
      else altScan alts (isWordCh c) cs

/-- First word-alternation match anywhere in the text. -/
def altSearch (alts : List Str) (t : Str) : Option Str := altScan alts false t

/-- Pattern token for the hand-compiled regexes: a literal character, an
optional literal character (`x?`), or an optional wildcard (`.?`). -/
inductive PTok where
  | lit (c : Char)
  | litOpt (c : Char)
  | anyOpt
deriving DecidableEq

/-- Literal pattern fragment. -/
def litS (s : String) : List PTok := s.data.map PTok.lit

/-- Backtracking matcher for a token pattern at the head of the text; `k`
is the continuation applied to the remainder (the closing `\b`).
Optional tokens are tried greedily (consume first), as Python does. -/
def tokMatch : List PTok → Str → (Str → Bool) → Bool
  | [], t, k => k t
  | PTok.lit c :: ps, t, k =>
      match t with
      | [] => false
      | x :: xs => x = c && tokMatch ps xs k
  | PTok.litOpt c :: ps, t, k =>
      (match t with
       | x :: xs => x = c && tokMatch ps xs k
       | [] => false) || tokMatch ps t k
  | PTok.anyOpt :: ps, t, k =>
      (match t with
       | x :: xs => x ≠ '\n' && tokMatch ps xs k
       | [] => false) || tokMatch ps t k

/-- Does some alternative of a token pattern match at the head of `t`
(with the closing `\b`)? -/
def patAt (alts : List (List PTok)) (t : Str) : Bool :=
  alts.any (fun a => tokMatch a t bdyAfter)

/-- Scanner for `pattern.search(t)` of a `\b(...)\b` token pattern. -/
def patScan (alts : List (List PTok)) (prevWord : Bool) : Str → Bool
  | [] => false
  | c :: cs =>
      if !prevWord then patAt alts (c :: cs) || patScan alts (isWordCh c) cs
      else patScan alts (isWordCh c) cs

/-- Does a `\b(...)\b` token pattern match anywhere in `t` (the patterns
are all compiled with `re.I`, so the search text is lower-cased first)? -/
def patSearch (alts : List (List PTok)) (t : Str) : Bool :=
  patScan alts false (pyLower t)

/-- The apostrophe character (U+0027). -/
def apos : Char := Char.ofNat 39

namespace SearchPy

/-- `search.BASE_SYNONYMS`, in source (insertion) order. -/
def synEntry (b : String) (l : List String) : Str × List Str := (s2l b, l.map s2l)

/-- The synonym dictionary of `search.py` (`BASE_SYNONYMS`). -/
def BASE_SYNONYMS : List (Str × List Str) :=
  [ synEntry "health" ["health", "healthcare", "medical", "clinic", "hospital", "doctor", "physician", "health center"],
    synEntry "dental" ["dental", "dentist", "oral", "teeth", "tooth", "dental care", "exams", "cleanings", "x-rays", "extractions"],
    synEntry "pediatric" ["pediatric", "pediatrician", "child", "children", "kids", "baby", "infant", "adolescent", "youth"],
    synEntry "mental" ["mental", "therapy", "therapist", "counseling", "counselor", "psychology", "psychiatric", "psychiatry", "behavioral health", "behavioral"],
    synEntry "primary" ["primary", "family", "general", "internal", "medicine", "doctor", "physician", "primary care", "family medicine"],
    synEntry "womens" ["women", "womens", "obstetrics", "gynecology", "obgyn", "ob/gyn", "prenatal", "midwifery"],
    synEntry "urgent" ["urgent", "emergency", "walk-in", "same-day", "walk in", "24/7", "24 hours"],
    synEntry "hiv" ["hiv", "sti", "std", "sexually transmitted"],
    synEntry "nutrition" ["nutrition", "nutritional", "dietitian", "diet"],
    synEntry "mobile" ["mobile", "screening", "screenings", "glucose", "blood pressure", "immunization", "vaccination", "vaccine"],
    synEntry "specialty" ["surgery", "podiatry", "surgical", "specialty"],
    synEntry "education" ["education", "school", "learning", "class", "course", "training"],
    synEntry "esl" ["esl", "english", "english language", "language", "language training", "english classes", "language learning", "english tutoring"],
    synEntry "citizenship" ["citizenship", "citizenship preparation", "citizenship classes", "citizenship exam", "civics"],
    synEntry "ged" ["ged", "high school", "diploma", "education", "adult education", "adult basic education"],
    synEntry "literacy" ["literacy", "literate", "reading", "adult literacy", "basic literacy", "family literacy"],
    synEntry "youth" ["youth", "after-school", "after school", "tutoring", "homework help", "mentoring", "youth programs"],
    synEntry "computer" ["computer", "digital literacy", "computer skills", "computer classes", "digital", "technology"],
    synEntry "workforce" ["workforce", "job training", "employment", "career", "vocational", "job readiness", "job placement", "workforce readiness"],
    synEntry "financial" ["financial literacy", "financial", "money management", "budgeting"],
    synEntry "legal" ["legal", "lawyer", "attorney", "immigration", "asylum", "daca", "daca", "family reunification", "court", "advocacy", "legal services"],
    synEntry "resettlement" ["resettlement", "refugee resettlement", "case management", "welcoming center"],
    synEntry "shelter" ["shelter", "housing", "homeless", "emergency housing", "emergency shelter", "domestic violence", "temporary housing"],
    synEntry "employment" ["employment", "job", "job placement", "job readiness", "job training", "job coaching", "career", "vocational"],
    synEntry "benefits" ["benefits", "snap", "food stamps", "medicaid", "cash assistance", "public benefits", "enrollment"],
    synEntry "food" ["food", "food pantry", "pantry", "food bank", "food distribution", "free meals", "meals"],
    synEntry "crisis" ["crisis", "hotline", "24-hour", "emergency", "abuse", "neglect"],
    synEntry "free" ["free", "no cost", "no-cost", "complimentary", "pro bono"],
    synEntry "low cost" ["low cost", "low-cost", "affordable", "sliding scale"],
    synEntry "medicaid" ["medicaid", "medicare", "insurance", "coverage"] ]

/-- Lexicographic order on `(hour, minute)` pairs, matching comparison of
Python `datetime.time` values. -/
def tmLe (a b : Nat × Nat) : Bool :=
  decide (a.1 < b.1) || (decide (a.1 = b.1) && decide (a.2 ≤ b.2))

/-- Loop body of `search.is_open_now`: scan the time ranges of the current
day in order; constructing `time(h, m)` with an out-of-range value raises,
which the enclosing `try` turns into `False` for the whole call. -/
def openLoop (now : Now) : List TimeRange → Bool
  | [] => false
  | ((h1, m1), (h2, m2)) :: rest =>
      if h1 < 24 ∧ m1 < 60 ∧ h2 < 24 ∧ m2 < 60 then
        if tmLe (h1, m1) (now.hour, now.minute) ∧ tmLe (now.hour, now.minute) (h2, m2) then true
        else openLoop now rest
      else false

/-- `search.is_open_now`: the current day must be a key of the record's
`hours` mapping and the current time must lie in one of its ranges. -/
def is_open_now (now : Now) (record : Record) : Bool :=
  match record.hours.lookup now.day with
  | none => false
  | some ranges => openLoop now ranges

/-- Alternatives of the `service` pattern of `search.get_search_patterns`,
in alternation order. -/
def serviceAlts : List Str :=
  [ "dental", "pediatric", "mental", "primary", "urgent", "esl", "ged", "legal",
    "shelter", "womens", "hiv", "nutrition", "mobile", "specialty", "citizenship",
    "literacy", "youth", "computer", "workforce", "financial", "resettlement",
    "employment", "benefits", "food", "crisis" ].map s2l

/-- Alternatives of the `day` pattern of `search.get_search_patterns`. -/
def dayAlts : List Str :=
  [ "monday", "tuesday", "wednesday", "thursday", "friday", "saturday", "sunday",
    "mon", "tue", "wed", "thu", "fri", "sat", "sun" ].map s2l

/-- Alternatives of the `time` pattern of `search.get_search_patterns`. -/
def timeAlts : List Str := [ "now", "today", "open", "available" ].map s2l

/-- The `day_map` of `search.extract_key_terms`. -/
def dayMap : List (Str × Str) :=
  [ (s2l "mon", s2l "monday"), (s2l "tue", s2l "tuesday"), (s2l "wed", s2l "wednesday"),
    (s2l "thu", s2l "thursday"), (s2l "fri", s2l "friday"), (s2l "sat", s2l "saturday"),
    (s2l "sun", s2l "sunday") ]

/-- The facets `search.extract_key_terms` returns. -/
structure KeyTerms where
  zip : Option Str
  service : Option Str
  day : Option Str
  time : Option Str
deriving DecidableEq

/-- `search.extract_key_terms`: ZIP is searched on the raw query (the
pattern is case-sensitive but digits are unaffected); the other patterns
carry `re.I`, matched here by searching the lower-cased query; the
matched group is lower-cased, hence equals the (lowercase) alternative. -/
def extract_key_terms (query : Str) : KeyTerms :=
  let ql := pyLower query
  { zip := findZip query
    service := altSearch serviceAlts ql
    day := (altSearch dayAlts ql).map (fun d => (dayMap.lookup d).getD d)
    time := altSearch timeAlts ql }

/-- `search.expand_query_terms`: the lower-cased query first, then, for
every base term occurring in it, the variants obtained by replacing the
base term with each synonym not already present. -/
def expand_query_terms (query : Str) : List Str :=
  let ql := pyLower query
  ql :: BASE_SYNONYMS.foldl
    (fun acc bs =>
      if containsSub bs.1 ql then
        acc ++ (bs.2.filter (fun syn => !containsSub syn ql)).map
          (fun syn => replaceAll ql bs.1 syn)
      else acc) []

/-- `search.fuzzy_score`: the weighted blend
`0.3·token_sort + 0.25·token_set + 0.2·partial + 0.15·word_overlap +
0.1·bigram_overlap`, capped at 1; 0 when the record has no search blob. -/
def fuzzy_score (record : Record) (query : Str) : Frac :=
  let searchBlob := record.searchBlob
  if searchBlob = [] then fr0
  else
    let ql := pyLower query
    let tokenSort := tokSortSim searchBlob ql
    let tokenSet := tokSetSim searchBlob ql
    let winPart := alignSim searchBlob ql
    let wq := sdedup (pySplit ql)
    let wb := sdedup (pySplit searchBlob)
    let wordOverlap := mkF ((wq.filter (fun x => x ∈ wb)).length : Nat) (max wq.length 1)
    let bq := sdedup (bigramsOf ql)
    let bb := sdedup (bigramsOf searchBlob)
    let bigramOverlap :=
      if bq = [] then fr0
      else mkF ((bq.filter (fun x => x ∈ bb)).length : Nat) (max bq.length 1)
    pyMinF
      (sumF [ tokenSort.mul (mkF 3 10), tokenSet.mul (mkF 1 4), winPart.mul (mkF 1 5),
              wordOverlap.mul (mkF 3 20), bigramOverlap.mul (mkF 1 10) ])
      fr1

/-- Pattern alternative made of plain words (no optional characters). -/
def litAlts (l : List String) : List (List PTok) := l.map litS

/-- The `women's health` alternative of the women's-health must-have
pattern: regex `women\'?s health` (optional apostrophe). -/
def womensAlt : List PTok :=
  litS "women" ++ [PTok.litOpt apos] ++ litS "s health"

/-- `search.must_have_patterns`: category-specific patterns required by
the query; the `stopwords`/`meaningful_terms` locals of the source are
dead code (never read) and are omitted. Each pattern is a `\b(...)\b`
alternation compiled with `re.I`. -/
def must_have_patterns (query : Str) (category : Str) : List (List (List PTok)) :=
  let ql := pyLower query
  let has := fun (l : List String) => l.any (fun t => containsSub (s2l t) ql)
  if category = s2l "Healthcare" then
    (if has ["dental", "dentist", "teeth", "tooth", "oral"] then
      [litAlts ["dental", "dentist", "oral", "teeth", "tooth", "dental care"]] else []) ++
    (if has ["pediatric", "children", "kids", "child", "adolescent", "youth"] then
      [litAlts ["pediatric", "pediatrician", "child", "children", "kids", "baby", "infant", "adolescent"]] else []) ++
    (if has ["mental", "therapy", "therapist", "counseling", "psychiatric", "behavioral"] then
      [litAlts ["mental", "therapy", "therapist", "counseling", "counselor", "psychology", "psychiatric", "behavioral"]] else []) ++
    (if has ["women", "womens", "obgyn", "prenatal", "obstetrics", "gynecology"] then
      [womensAlt :: litAlts ["obstetrics", "gynecology", "ob/gyn", "prenatal", "midwifery"]] else []) ++
    (if has ["hiv", "sti", "std"] then
      [litAlts ["hiv", "sti", "std", "sexually transmitted"]] else []) ++
    (if has ["primary", "family medicine", "internal medicine"] then
      [litAlts ["primary care", "family medicine", "internal medicine", "primary", "family", "general"]] else [])
  else if category = s2l "Education" then
    (if has ["esl", "english", "language"] then
      [litAlts ["esl", "english", "english language", "language training", "language classes"]] else []) ++
    (if has ["citizenship", "civics"] then
      [litAlts ["citizenship", "citizenship preparation", "civics"]] else []) ++
    (if has ["ged", "high school", "diploma"] then
      [[litS "ged", litS "high" ++ [PTok.anyOpt] ++ litS "school", litS "diploma", litS "adult education"]] else []) ++
    (if has ["youth", "after-school", "tutoring", "homework"] then
      [[litS "youth", litS "after" ++ [PTok.anyOpt] ++ litS "school", litS "tutoring", litS "homework help", litS "mentoring"]] else []) ++
    (if has ["workforce", "job training", "employment", "career"] then
      [litAlts ["workforce", "job training", "employment", "career", "vocational", "job readiness"]] else []) ++
    (if has ["computer", "digital", "technology"] then
      [litAlts ["computer", "digital literacy", "computer skills", "technology"]] else [])
  else if category = s2l "Resettlement / Legal / Shelter" then
    (if has ["legal", "lawyer", "attorney", "immigration", "asylum", "daca"] then
      [litAlts ["legal", "lawyer", "attorney", "immigration", "asylum", "daca", "legal services"]] else []) ++
    (if has ["shelter", "housing", "homeless", "emergency"] then
      [litAlts ["shelter", "housing", "homeless", "emergency housing", "emergency shelter"]] else []) ++
    (if has ["resettlement", "refugee", "case management"] then
      [litAlts ["refugee resettlement", "resettlement", "case management"]] else []) ++
    (if has ["benefits", "snap", "medicaid", "food stamps"] then
      [litAlts ["benefits", "snap", "food stamps", "medicaid", "cash assistance", "public benefits"]] else []) ++
    (if has ["food", "pantry", "meals"] then
      [litAlts ["food", "food pantry", "pantry", "food bank", "free meals"]] else []) ++
    (if has ["employment", "job", "job placement"] then
      [litAlts ["employment", "job", "job placement", "job training", "job coaching"]] else [])
  else []

/-- The `general_concepts` table of `search.rank_items`. -/
def general_concepts : List (Str × List Str) :=
  [ synEntry "health" ["clinic", "center", "care", "medical", "health"],
    synEntry "help" ["assistance", "support", "services", "help", "aid"],
    synEntry "care" ["treatment", "care", "services", "support"],
    synEntry "class" ["education", "training", "course", "class", "learning"],
    synEntry "food" ["pantry", "meals", "food", "nutrition", "hunger"],
    synEntry "housing" ["shelter", "housing", "home", "residence"],
    synEntry "legal" ["law", "attorney", "counsel", "immigration", "legal"] ]

/-- Service-tag bonus of `search.rank_items`: +0.15 for every normalized
service tag of the record that occurs in the lower-cased query. -/
def serviceBonus (services : List Str) (ql : Str) : Frac :=
  sumF (services.map (fun s => if containsSub s ql then mkF 3 20 else fr0))

/-- Subcategory bonus of `search.rank_items`: +0.2 for every subcategory
whose lower-cased label occurs in the lower-cased query. -/
def subcatBonus (subcats : List Str) (ql : Str) : Frac :=
  sumF (subcats.map (fun sc => if containsSub (pyLower sc) ql then mkF 1 5 else fr0))

/-- Does some synonym of one synonym list occur both in the query and in
the (lower-cased) services text? (the source breaks after the first). -/
def synListHit (ql stL : Str) (syns : List Str) : Bool :=
  syns.any (fun syn => containsSub syn ql && containsSub syn stL)

/-- Synonym co-occurrence bonus of `search.rank_items`: +0.1 per synonym
list with a member occurring in both query and services text (skipped
entirely when the record has no services text). -/
def synBonus (stL ql : Str) : Frac :=
  if stL = [] then fr0
  else sumF (BASE_SYNONYMS.map (fun bs => if synListHit ql stL bs.2 then mkF 1 10 else fr0))

/-- Partial word-stem bonus of `search.rank_items`: +0.05 per query word
of length ≥ 3 contained in (or containing) some services-text word. -/
def stemBonus (stL ql : Str) : Frac :=
  let sw := pySplit stL
  sumF ((pySplit ql).map (fun qw =>
    if 3 ≤ qw.length ∧ sw.any (fun s => containsSub qw s || containsSub s qw) then mkF 1 20
    else fr0))

/-- Conceptual-category bonus of `search.rank_items`: +0.08 per concept
occurring in the query one of whose related terms occurs in the blob. -/
def conceptBonus (searchText ql : Str) : Frac :=
  sumF (general_concepts.map (fun cr =>
    if containsSub cr.1 ql && cr.2.any (fun t => containsSub t searchText) then mkF 2 25
    else fr0))

/-- The score the loop body of `search.rank_items` assigns to one record
that passed the hard filters, as the sum of its eleven additive pieces (in
source order): weighted max-fuzzy base, exact-substring bonus, name bonus,
service-tag bonuses, subcategory bonuses, synonym co-occurrence bonuses,
partial word bonuses, conceptual bonuses, open-now bonus, ZIP-intent
bonus and day-intent bonus. -/
def scoreItem (now : Now) (kt : KeyTerms) (expanded : List Str) (query : Str)
    (item : Record) : Frac :=
  let searchText := item.searchBlob
  let maxFuzzy := expanded.foldl (fun acc eq => pyMaxF acc (fuzzy_score item eq)) fr0
  let ql := pyLower query
  let stL := pyLower item.servicesText
  sumF
    [ maxFuzzy.mul (mkF 7 10),
      if containsSub ql searchText then mkF 3 10 else fr0,
      if containsSub ql (pyLower item.name) then mkF 1 5 else fr0,
      serviceBonus item.services ql,
      subcatBonus item.subcategories ql,
      synBonus stL ql,
      stemBonus stL ql,
      conceptBonus searchText ql,
      if (kt.time = some (s2l "now") ∨ kt.time = some (s2l "today") ∨
          kt.time = some (s2l "open")) ∧ is_open_now now item then mkF 2 5 else fr0,
      (match kt.zip with
       | some z => if item.zipCode = z then mkF 3 10 else fr0
       | none => fr0),
      (match kt.day with
       | some d => if (item.hours.lookup d).isSome then mkF 1 5 else fr0
       | none => fr0) ]

/-- The four hard filters of `search.rank_items` (ZIP equality, language
membership, service-tag membership, day-key presence), each a no-op on the
sentinel "All". -/
def passesFilters (zf lf sf df : Str) (item : Record) : Bool :=
  (decide (zf = s2l "All") || decide (item.zipCode = zf)) &&
  (decide (lf = s2l "All") || decide (lf ∈ item.languages)) &&
  (decide (sf = s2l "All") || decide (sf ∈ item.services)) &&
  (decide (df = s2l "All") || (item.hours.lookup df).isSome)

/-- The `scored_items` list of `search.rank_items`: every record passing
the hard filters, paired with its score, in dataset order. The computed
must-have patterns deliberately do not take part (source lines 321-331:
the pattern check falls through with `pass`). -/
def scoredItems (now : Now) (items : List Record) (query category : Str)
    (zf lf sf df : Str) : List (Frac × Record) :=
  let kt := extract_key_terms query
  let expanded := expand_query_terms query
  let _mh := must_have_patterns query category
  items.filterMap (fun item =>
    if passesFilters zf lf sf df item then
      some (scoreItem now kt expanded query item, item)
    else none)

/-- The timing keywords of `search.rank_items`. -/
def timingKeywords : List Str :=
  [ "now", "today", "open", "available", "immediate", "urgent" ].map s2l

/-- `wants_timing` of `search.rank_items`: a timing keyword occurs in the
lower-cased query, or the intent extractor found a time term. -/
def wantsTiming (query : Str) : Bool :=
  timingKeywords.any (fun kw => containsSub kw (pyLower query)) ||
    (extract_key_terms query).time.isSome

/-- Comparator of the plain score sort (`reverse=True` on the score):
an element already placed stays in front of an incoming one when its
score is ≥ (stable descending sort). -/
def keepScore (x y : Frac × Record) : Bool := y.1.ble x.1

/-- The timing sort key `(is_open, score)` of `search.rank_items`. -/
def timingKey (now : Now) (x : Frac × Record) : Bool × Frac := (is_open_now now x.2, x.1)

/-- Lexicographic `<=` on `(bool, score)` pairs, with `False < True` as in
Python. -/
def keyLeB : Bool × Frac → Bool × Frac → Bool
  | (b1, s1), (b2, s2) => if b1 = b2 then s1.ble s2 else decide (b1 = false)

/-- Comparator of the timing sort (`reverse=True` on `(is_open, score)`). -/
def keepTiming (now : Now) (x y : Frac × Record) : Bool :=
  keyLeB (timingKey now y) (timingKey now x)

/-- `search.rank_items`: empty result on an empty item list or
whitespace-only query; otherwise filter, score, sort (timing-aware when
the query wants timing) and drop scores ≤ 0.05. -/
def rank_items (now : Now) (items : List Record) (query category : Str)
    (zf lf sf df : Str) : List (Frac × Record) :=
  if items = [] ∨ pyStrip query = [] then []
  else
    let scored := scoredItems now items query category zf lf sf df
    let sorted :=
      if wantsTiming query then stSort (keepTiming now) scored
      else stSort keepScore scored
    sorted.filter (fun x => (mkF 1 20).blt x.1)

end SearchPy

/-- First `some` produced by `f` over the list, in order. -/
def firstSome {α β : Type} (l : List α) (f : α → Option β) : Option β :=
  match l with
  | [] => none
  | a :: as =>
      match f a with
      | some b => some b
      | none => firstSome as f

/-- Split a string at every occurrence of the character `c` (Python
`s.split(c)`: empty pieces kept). -/
def splitOnCh (c : Char) (s : Str) : List Str :=
  s.foldr
    (fun x acc =>
      match acc with
      | h :: t => if x = c then [] :: h :: t else (x :: h) :: t
      | [] => [[x]])
    [[]]

/-- Decimal digits of a natural number (fuel-based; `natToStr 0 = "0"`). -/
def natToStrGo : Nat → Nat → Str
  | 0, _ => []
  | f + 1, n => if n = 0 then [] else natToStrGo f (n / 10) ++ [Char.ofNat (48 + n % 10)]

/-- Python `str(n)` for a natural number. -/
def natToStr (n : Nat) : Str := if n = 0 then ['0'] else natToStrGo n n

/-- Numeric value of a digit string (`int(s)`; 0 on the empty string, as
the source uses `int(x) if x else 0`). -/
def digitsToNat (s : Str) : Nat := s.foldl (fun a c => a * 10 + (c.toNat - 48)) 0

namespace DataLoader

open SearchPy (litAlts womensAlt)

/-- `data_loader.DAY_PATTERNS`, in source order: each day's regex
alternatives in alternation order. -/
def DAY_PATTERNS : List (Str × List Str) :=
  [ (s2l "monday", [s2l "mon", s2l "monday"]),
    (s2l "tuesday", [s2l "tue", s2l "tues", s2l "tuesday"]),
    (s2l "wednesday", [s2l "wed", s2l "wednesday"]),
    (s2l "thursday", [s2l "thu", s2l "thur", s2l "thursday"]),
    (s2l "friday", [s2l "fri", s2l "friday"]),
    (s2l "saturday", [s2l "sat", s2l "saturday"]),
    (s2l "sunday", [s2l "sun", s2l "sunday"]) ]

/-- Position-tracking scanner for `re.search(r'\b(alt|...)\b', t)`
returning the END offset of the first match (used by `parse_hours` to
slice the look-ahead window after the day name). -/
def altScanEnd (alts : List Str) (prevWord : Bool) (pos : Nat) : Str → Option Nat
  | [] => none
  | c :: cs =>
      if !prevWord then
        match altAt alts (c :: cs) with
        | some a => some (pos + a.length)
        | none => altScanEnd alts (isWordCh c) (pos + 1) cs
      else altScanEnd alts (isWordCh c) (pos + 1) cs

/-- End offset of the first `\b(alt|...)\b` match in `t`. -/
def altSearchEnd (alts : List Str) (t : Str) : Option Nat := altScanEnd alts false 0 t

/-- Match of the time regex `(\d{1,2}):?(\d{2})?\s*(am|pm)?` at the head
of the text: groups `(digits, minute-digits, am/pm)` plus the remainder.
All trailing parts are optional, so the match succeeds whenever the head
is a digit; `\d{1,2}` and `:?` are greedy, `(\d{2})?` needs two digits. -/
def timeTokAt (t : Str) : Option ((Str × Str × Str) × Str) :=
  match t with
  | [] => none
  | c1 :: rest1 =>
      if c1.isDigit then
        let (d1, r1) :=
          match rest1 with
          | c2 :: rest2 => if c2.isDigit then ([c1, c2], rest2) else ([c1], rest1)
          | [] => ([c1], ([] : Str))
        let r2 := match r1 with
                  | ':' :: rr => rr
                  | _ => r1
        let (d2, r3) :=
          match r2 with
          | a :: b :: rr => if a.isDigit ∧ b.isDigit then ([a, b], rr) else (([] : Str), r2)
          | _ => (([] : Str), r2)
        let r4 := r3.dropWhile isSpaceCh
        let (ap, r5) :=
          if hasPre (s2l "am") r4 then (s2l "am", r4.drop 2)
          else if hasPre (s2l "pm") r4 then (s2l "pm", r4.drop 2)
          else (([] : Str), r4)
        some ((d1, d2, ap), r5)
      else none

/-- Fuel-based scanner for `time_pattern.findall` (non-overlapping,
left to right). -/
def timeScanGo : Nat → Str → List (Str × Str × Str)
  | 0, _ => []
  | _ + 1, [] => []
  | fuel + 1, c :: cs =>
      match timeTokAt (c :: cs) with
      | some (tok, rest) => tok :: timeScanGo fuel rest
      | none => timeScanGo fuel cs

/-- `time_pattern.findall(t)` for the time regex of `parse_hours`. -/
def timeFindAll (t : Str) : List (Str × Str × Str) := timeScanGo t.length t

/-- The pairing loop of `parse_hours`: consecutive time tokens become
(start, end) ranges, a dangling last token is dropped. -/
def pairUpTimes : List (Str × Str × Str) → List TimeRange
  | t1 :: t2 :: rest =>
      ((digitsToNat t1.1, digitsToNat t1.2.1), (digitsToNat t2.1, digitsToNat t2.2.1)) ::
        pairUpTimes rest
  | _ => []

/-- Per-day step of `data_loader.parse_hours`: if the day's pattern
matches, scan the 50 characters after the match for time tokens; the day
is entered into the mapping only when at least one token was found
(`if times:` in the source), possibly with an empty range list. -/
def dayEntry (hl : Str) (alts : List Str) : Option (List TimeRange) :=
  match altSearchEnd alts hl with
  | none => none
  | some e =>
      let remaining := (hl.drop e).take 50
      let times := timeFindAll remaining
      if times = [] then none else some (pairUpTimes times)

/-- `data_loader.parse_hours`. -/
def parse_hours (hoursText : Str) : List (Str × List TimeRange) :=
  if hoursText = [] then []
  else
    let hl := pyLower hoursText
    DAY_PATTERNS.filterMap (fun dp => (dayEntry hl dp.2).map (fun r => (dp.1, r)))

/-- `data_loader.normalize_zip`: first `\b(60\d{3})\b` match, else "". -/
def normalize_zip (addressText : Str) : Str :=
  if addressText = [] then []
  else
    match findZip addressText with
    | some z => z
    | none => []

/-- Exactly `n` digits at the head of the text. -/
def digN : Nat → Str → Option (Str × Str)
  | 0, t => some ([], t)
  | _ + 1, [] => none
  | n + 1, c :: cs =>
      if c.isDigit then (digN n cs).map (fun p => (c :: p.1, p.2)) else none

/-- The optional separator `[-.]?` of the phone regex: candidate
remainders in greedy order. -/
def optSep (t : Str) : List Str :=
  match t with
  | c :: cs => if c = '-' ∨ c = '.' then [cs, t] else [t]
  | [] => [t]

/-- Match of `(\d{3}[-.]?\d{3}[-.]?\d{4})` at the head of `t`, returning
the remainder after the match. -/
def phoneAt (t : Str) : Option Str :=
  (digN 3 t).bind (fun p1 =>
    firstSome (optSep p1.2) (fun r2 =>
      (digN 3 r2).bind (fun p2 =>
        firstSome (optSep p2.2) (fun r4 =>
          (digN 4 r4).map (fun p3 => p3.2)))))

/-- Scanner for `PHONE_PATTERN.search`: the first match, returned as the
matched slice (reconstructed from the consumed length). -/
def phoneScan (fuel : Nat) (t : Str) : Option Str :=
  match fuel, t with
  | 0, _ => none
  | _ + 1, [] => none
  | f + 1, c :: cs =>
      match phoneAt (c :: cs) with
      | some rest => some ((c :: cs).take ((c :: cs).length - rest.length))
      | none => phoneScan f cs

/-- `data_loader.normalize_phone`: first phone-pattern match (normalized
to its digits), else the stripped raw text with empty digits. -/
def normalize_phone (phoneText : Str) : Str × Str :=
  if phoneText = [] then ([], [])
  else
    match phoneScan phoneText.length phoneText with
    | some m => (m, m.filter Char.isDigit)
    | none => (pyStrip phoneText, [])

/-- Match of `https?://[^\s<>"\']+` at the head of `t` (the character
class excludes whitespace, angle brackets, double quote and apostrophe). -/
def urlAt (t : Str) : Option Str :=
  let core := fun (k : Nat) =>
    let rest := t.drop k
    let body := rest.takeWhile (fun c =>
      !(isSpaceCh c || c = '<' || c = '>' || c = '"' || c = apos))
    if body = [] then none else some (t.take k ++ body)
  if hasPre (s2l "https://") t then core 8
  else if hasPre (s2l "http://") t then core 7
  else none

/-- Scanner for `WEBSITE_PATTERN.search`. -/
def urlScan (fuel : Nat) (t : Str) : Option Str :=
  match fuel, t with
  | 0, _ => none
  | _ + 1, [] => none
  | f + 1, c :: cs =>
      match urlAt (c :: cs) with
      | some m => some m
      | none => urlScan f cs

/-- `data_loader.normalize_website`: first URL match, else stripped text. -/
def normalize_website (websiteText : Str) : Str :=
  if websiteText = [] then []
  else
    match urlScan websiteText.length websiteText with
    | some m => m
    | none => pyStrip websiteText

/-- `data_loader.SERVICE_PATTERNS`, in source (insertion) order; `.?`
and optional characters of the original regexes become optional tokens. -/
def SERVICE_PATTERNS : List (Str × List (List PTok)) :=
  [ (s2l "dental", litAlts ["dental", "dentist", "oral", "teeth", "tooth", "dental care", "exams", "cleanings"] ++
      [litS "x" ++ [PTok.anyOpt] ++ litS "rays"] ++ litAlts ["extractions"]),
    (s2l "pediatric", litAlts ["pediatric", "pediatrician", "child", "children", "kids", "baby", "infant", "adolescent", "adolescent medicine"] ++
      [litS "youth" ++ [PTok.anyOpt] ++ litS "focused"]),
    (s2l "mental_health", litAlts ["mental", "therapy", "therapist", "counseling", "counselor", "psychology", "psychiatric", "psychiatry", "behavioral health", "behavioral"]),
    (s2l "primary_care", litAlts ["primary care", "family medicine", "family", "general", "internal medicine", "internal", "adult", "physician", "doctor"]),
    (s2l "womens_health", womensAlt :: litAlts ["obstetrics", "gynecology", "ob/gyn", "ob-gyn", "ob gyn", "prenatal", "midwifery", "prenatal/ob"]),
    (s2l "urgent_care", litAlts ["urgent", "emergency"] ++
      [litS "walk" ++ [PTok.anyOpt] ++ litS "in", litS "same" ++ [PTok.anyOpt] ++ litS "day"] ++
      litAlts ["24/7", "24 hours"]),
    (s2l "hiv_sti", litAlts ["hiv", "sti", "std", "sexually transmitted"] ++
      [litS "hiv/s" ++ [PTok.litOpt 't'] ++ litS "i"]),
    (s2l "nutrition", litAlts ["nutrition", "nutritional", "dietitian", "diet"]),
    (s2l "mobile_screening", litAlts ["mobile", "screening", "screenings", "glucose", "blood pressure", "immunization", "vaccination", "vaccine"]),
    (s2l "specialty", litAlts ["surgery", "podiatry", "surgical", "specialty"]),
    (s2l "esl", litAlts ["esl", "english", "english language", "language training", "language classes", "english classes", "language learning"]),
    (s2l "citizenship", litAlts ["citizenship", "citizenship preparation", "citizenship classes", "citizenship exam", "citizenship instruction", "civics"]),
    (s2l "ged", litAlts ["ged"] ++ [litS "high" ++ [PTok.anyOpt] ++ litS "school"] ++
      litAlts ["diploma", "adult education", "adult basic education"]),
    (s2l "literacy", litAlts ["literacy", "literate", "reading", "adult literacy", "basic literacy", "family literacy"]),
    (s2l "youth_tutoring", litAlts ["youth"] ++ [litS "after" ++ [PTok.anyOpt] ++ litS "school"] ++
      litAlts ["tutoring", "homework help"] ++
      [litS "after" ++ [PTok.anyOpt] ++ litS "school tutoring"] ++
      litAlts ["mentoring", "youth programs"]),
    (s2l "computer_literacy", litAlts ["computer", "digital literacy", "computer skills", "computer classes", "digital", "technology"]),
    (s2l "workforce", litAlts ["workforce", "job training", "employment", "career", "vocational", "job readiness", "job placement", "workforce readiness", "workforce development"]),
    (s2l "financial_literacy", litAlts ["financial literacy", "financial", "money management", "budgeting"]),
    (s2l "legal", litAlts ["legal", "lawyer", "attorney", "immigration", "asylum", "daca"] ++
      [[PTok.litOpt 'd', PTok.litOpt 'a', PTok.litOpt 'c', PTok.lit 'a']] ++
      litAlts ["family reunification", "court", "advocacy", "legal services", "legal assistance"]),
    (s2l "refugee_resettlement", litAlts ["refugee resettlement", "resettlement", "case management", "welcoming center"]),
    (s2l "shelter", litAlts ["shelter", "housing", "homeless", "emergency housing", "emergency shelter", "domestic violence shelter", "temporary housing"]),
    (s2l "employment_assistance", litAlts ["employment", "job", "job placement", "job readiness", "job training", "job coaching", "career", "vocational"]),
    (s2l "benefits", litAlts ["benefits", "snap", "food stamps", "medicaid", "cash assistance", "public benefits", "enrollment", "insurance enrollment"]),
    (s2l "food", litAlts ["food", "food pantry", "pantry", "food bank", "food distribution", "free meals", "meals"]),
    (s2l "crisis", litAlts ["crisis", "hotline"] ++ [litS "24" ++ [PTok.anyOpt] ++ litS "hour"] ++
      litAlts ["emergency", "abuse", "neglect"]) ]

/-- `data_loader.LANGUAGE_PATTERNS`, in source order. -/
def LANGUAGE_PATTERNS : List (Str × List (List PTok)) :=
  [ (s2l "spanish", litAlts ["spanish", "español", "española"]),
    (s2l "arabic", litAlts ["arabic", "عربي", "arab"]),
    (s2l "french", litAlts ["french", "français", "française"]),
    (s2l "polish", litAlts ["polish", "polski"]),
    (s2l "mandarin", litAlts ["mandarin", "chinese", "中文", "普通话"]),
    (s2l "urdu", litAlts ["urdu", "اردو"]),
    (s2l "hindi", litAlts ["hindi", "हिन्दी"]) ]

/-- `data_loader.normalize_services`: the tags of all matching service
patterns (`list(set(...))` on already-distinct tags is modelled by
first-occurrence deduplication). -/
def normalize_services (servicesText : Str) : List Str :=
  if servicesText = [] then []
  else
    sdedup ((SERVICE_PATTERNS.filter (fun sp => patSearch sp.2 (pyLower servicesText))).map Prod.fst)

/-- `data_loader.normalize_languages`. -/
def normalize_languages (languagesText : Str) : List Str :=
  if languagesText = [] then []
  else
    sdedup ((LANGUAGE_PATTERNS.filter (fun lp => patSearch lp.2 (pyLower languagesText))).map Prod.fst)

/-- `data_loader.get_availability_badges`: independent keyword regexes
over the lower-cased concatenation of services text, name and address. -/
def get_availability_badges (servicesText name address : Str) : List Str :=
  if servicesText = [] then []
  else
    let textL := pyLower (servicesText ++ ' ' :: name ++ ' ' :: address)
    sdedup (List.filterMap (fun p => p) [
      (if patSearch (litAlts ["free", "no cost", "no-cost", "complimentary", "pro bono", "tuition-free"]) textL then some (s2l "Free") else none),
      (if patSearch (litAlts ["low cost", "low-cost", "affordable", "sliding scale", "income-based"]) textL then some (s2l "Low Cost") else none),
      (if patSearch (litAlts ["medicaid", "medicare", "insurance", "accepts medicaid", "medicaid accepted"]) textL then some (s2l "Accepts Medicaid") else none),
      (if patSearch ([litS "walk" ++ [PTok.anyOpt] ++ litS "in"] ++ litAlts ["walk in", "no appointment"] ++
          [litS "drop" ++ [PTok.anyOpt] ++ litS "in", litS "same" ++ [PTok.anyOpt] ++ litS "day"]) textL then some (s2l "Walk-in") else none),
      (if patSearch (litAlts ["interpreter", "translation", "bilingual", "language services", "multilingual"]) textL then some (s2l "Interpreter Available") else none),
      (if patSearch (litAlts ["24/7", "24 hours", "always open", "emergency"] ++
          [litS "round" ++ [PTok.anyOpt] ++ litS "the" ++ [PTok.anyOpt] ++ litS "clock"]) textL then some (s2l "24/7 Available") else none),
      (if patSearch (litAlts ["appointment required", "call ahead", "schedule", "booking"]) textL then some (s2l "Appointment Required") else none) ])

/-- The label "Women's Health" (apostrophe written out). -/
def womensLabel : Str := s2l "Women" ++ apos :: s2l "s Health"

/-- `data_loader.get_subcategories`. -/
def get_subcategories (servicesText category : Str) : List Str :=
  if servicesText = [] then []
  else
    let sl := pyLower servicesText
    let hit := fun (alts : List (List PTok)) (label : Str) =>
      if patSearch alts sl then some label else none
    sdedup (List.filterMap (fun p => p) (
      if category = s2l "Healthcare" then
        [ hit (litAlts ["family medicine", "primary care", "internal medicine", "general"]) (s2l "Primary Care"),
          hit (litAlts ["dental", "dentist", "oral"]) (s2l "Dental"),
          hit (litAlts ["pediatric", "children", "kids", "adolescent", "youth"]) (s2l "Pediatrics"),
          hit (litAlts ["women", "obstetrics", "gynecology", "ob/gyn", "prenatal", "midwifery"]) womensLabel,
          hit (litAlts ["mental", "therapy", "counseling", "psychiatric", "behavioral"]) (s2l "Mental Health"),
          hit (litAlts ["mobile", "screening", "immunization", "vaccination"]) (s2l "Mobile/Screening Services"),
          hit (litAlts ["hiv", "sti", "std"]) (s2l "HIV/STI Services"),
          hit (litAlts ["nutrition"]) (s2l "Nutrition"),
          hit (litAlts ["urgent", "emergency", "24/7", "24 hours"]) (s2l "Urgent Care"),
          hit (litAlts ["surgery", "podiatry", "specialty"]) (s2l "Specialty Care") ]
      else if category = s2l "Education" then
        [ hit (litAlts ["esl", "english language", "english classes"]) (s2l "ESL Classes"),
          hit (litAlts ["citizenship", "civics"]) (s2l "Citizenship Preparation"),
          hit (litAlts ["ged", "high school", "diploma", "adult education"]) (s2l "GED Preparation"),
          hit (litAlts ["literacy", "reading"]) (s2l "Adult Literacy"),
          hit (litAlts ["youth"] ++ [litS "after" ++ [PTok.anyOpt] ++ litS "school"] ++
            litAlts ["tutoring", "homework help"]) (s2l "Youth Tutoring"),
          hit (litAlts ["computer", "digital", "technology"]) (s2l "Computer Literacy"),
          hit (litAlts ["workforce", "job training", "employment", "career", "vocational"]) (s2l "Workforce Development"),
          hit (litAlts ["financial literacy", "financial"]) (s2l "Financial Literacy") ]
      else if category = s2l "Resettlement / Legal / Shelter" then
        [ hit (litAlts ["refugee resettlement", "resettlement", "case management"]) (s2l "Refugee Resettlement"),
          hit (litAlts ["legal", "lawyer", "attorney", "immigration", "asylum", "daca"]) (s2l "Legal Services"),
          hit (litAlts ["shelter", "housing", "homeless", "emergency housing"]) (s2l "Emergency Shelter/Housing"),
          hit (litAlts ["employment", "job", "job placement", "job training"]) (s2l "Employment Assistance"),
          hit (litAlts ["benefits", "snap", "medicaid", "cash assistance", "public benefits"]) (s2l "Public Benefits"),
          hit (litAlts ["food", "food pantry", "food bank", "free meals"]) (s2l "Food Assistance"),
          hit (litAlts ["domestic violence", "abuse", "crisis"]) (s2l "Crisis Services") ]
      else []))

/-- Lookahead `(?=\d+\.\s)`: one or more digits, a period, a whitespace. -/
def lookDS (t : Str) : Bool :=
  let d := t.takeWhile Char.isDigit
  match d, t.drop d.length with
  | _ :: _, '.' :: s :: _ => isSpaceCh s
  | _, _ => false

/-- Separator of the primary block splitter
`re.split(r'(?:\n\s*\n+|\n)(?=\d+\.\s)', ...)` at the head of `t`,
returning the consumed length. The first alternative `\n\s*\n+` can only
end where the lookahead sees a digit, i.e. at the end of the maximal
whitespace run, which then must end in a newline and have length ≥ 2;
otherwise the single-newline alternative applies. -/
def sepAt (t : Str) : Option Nat :=
  match t with
  | '\n' :: _ =>
      let run := t.takeWhile isSpaceCh
      let rest := t.drop run.length
      if 2 ≤ run.length ∧ run.getLastD ' ' = '\n' ∧ lookDS rest then some run.length
      else if lookDS (t.drop 1) then some 1 else none
  | _ => none

/-- Separator of the fallback splitter `re.split(r'\n\s*\n+', ...)`: a
newline whose maximal whitespace run contains a later newline; greedy
matching consumes through the last newline of the run. -/
def sepAt2 (t : Str) : Option Nat :=
  match t with
  | '\n' :: _ =>
      let run := t.takeWhile isSpaceCh
      match (run.drop 1).reverse.findIdx? (fun c => c = '\n') with
      | some j => some (run.length - j)
      | none => none
  | _ => none

/-- `re.split` driven by a separator matcher (pieces between matches,
empty pieces kept). -/
def splitByGo (sep : Str → Option Nat) : Nat → Str → Str → List Str
  | 0, acc, rest => [acc.reverse ++ rest]
  | _ + 1, acc, [] => [acc.reverse]
  | fuel + 1, acc, c :: cs =>
      match sep (c :: cs) with
      | some k => acc.reverse :: splitByGo sep fuel [] ((c :: cs).drop k)
      | none => splitByGo sep fuel (c :: acc) cs

/-- The primary (ordinal-aware) block split of `parse_blocks`. -/
def splitNumbered (t : Str) : List Str := splitByGo sepAt t.length [] t

/-- The fallback (blank-line) block split of `parse_blocks`. -/
def splitSimple (t : Str) : List Str := splitByGo sepAt2 t.length [] t

/-- `re.sub(r'^\d+\.\s*', '', line)`: strip a leading ordinal. -/
def stripOrd (l : Str) : Str :=
  let d := l.takeWhile Char.isDigit
  if d ≠ [] ∧ hasPre ['.'] (l.drop d.length) then (l.drop (d.length + 1)).dropWhile isSpaceCh
  else l

/-- `re.match(r'^(\d+)\.\s', line)`: the ordinal when followed by a
period and one whitespace character. -/
def idOf (l : Str) : Option Str :=
  let d := l.takeWhile Char.isDigit
  match l.drop d.length with
  | '.' :: s :: _ => if d ≠ [] ∧ isSpaceCh s then some d else none
  | _ => none

/-- `re.sub(r'^(k1|k2|...):\s*', '', line, flags=re.I)`: drop a leading
case-insensitive `key:` tag (first alternative in order); the trailing
`\s*` is subsumed by the `strip()` every call site applies. -/
def stripKeyHead (alts : List String) (line : Str) : Str :=
  match alts.find? (fun a => hasPre (pyLower (s2l a) ++ [':']) (pyLower line)) with
  | some a => line.drop ((s2l a).length + 1)
  | none => line

/-- `re.sub(r'^📍\s*', '', line)`. -/
def strip9 (line : Str) : Str :=
  if hasPre (s2l "📍") line then (line.drop 1).dropWhile isSpaceCh else line

/-- The per-line classification of `parse_blocks` (the if/elif chain in
source order; lines arriving here are already stripped and non-empty). -/
def procLine (category : Str) (r : Record) (line : Str) : Record :=
  let ll := pyLower line
  if containsSub (s2l "services:") ll || containsSub (s2l "🏥") ll ||
     containsSub (s2l "🛟") ll || containsSub (s2l "🛠️") ll then
    let st := pyStrip (stripKeyHead ["services", "service", "🏥", "🛟", "🛠️"] line)
    { r with servicesText := st,
             services := normalize_services st,
             subcategories := if category ≠ [] then get_subcategories st category
                              else r.subcategories,
             availabilityBadges := get_availability_badges st r.name r.address }
  else if containsSub (s2l "phone:") ll || containsSub (s2l "📞") ll then
    let pt := pyStrip (stripKeyHead ["phone", "📞"] line)
    let pd := normalize_phone pt
    { r with phone := pd.1, phoneDigits := pd.2 }
  else if containsSub (s2l "hours:") ll || containsSub (s2l "⏰") ll then
    let ht := pyStrip (stripKeyHead ["hours", "hour", "⏰"] line)
    { r with hours := parse_hours ht, hoursText := ht }
  else if containsSub (s2l "languages:") ll || containsSub (s2l "🌐") ll ||
          containsSub (s2l "language:") ll then
    let lt := pyStrip (stripKeyHead ["languages", "language", "🌐"] line)
    { r with languages := normalize_languages lt }
  else if containsSub (s2l "website:") ll || containsSub (s2l "🌐") ll ||
          containsSub (s2l "web:") ll then
    let wt := pyStrip (stripKeyHead ["website", "🌐", "web"] line)
    { r with website := normalize_website wt }
  else if containsSub (s2l "address:") ll || containsSub (s2l "📍") ll ||
          containsSub (s2l "location:") ll then
    let at0 := pyStrip (stripKeyHead ["address", "📍", "location"] line)
    let at1 := if at0 = [] ∧ hasPre (s2l "📍") (pyStrip line) then pyStrip (strip9 line)
               else at0
    { r with address := at1, zipCode := normalize_zip at1 }
  else
    if hasPre (s2l "📍") (pyStrip line) then
      let at1 := pyStrip (strip9 line)
      { r with address := at1, zipCode := normalize_zip at1 }
    else if r.address = [] ∧ 10 < line.length ∧
        (containsSub (s2l "chicago") ll || containsSub (s2l "il") ll ||
          (findZip line).isSome) then
      { r with address := line, zipCode := normalize_zip line }
    else r

/-- One block of `parse_blocks`: `none` models the `continue` on blocks
with fewer than two stripped non-empty lines; `itemsLen` is the number of
records accumulated so far (for the `item_<n>` fallback id). -/
def parseBlock (category : Str) (itemsLen : Nat) (block : Str) : Option Record :=
  match ((splitOnCh '\n' block).map pyStrip).filter (fun l => l ≠ []) with
  | [] => none
  | firstLine :: rest =>
      if rest = [] then none
      else
        let name := pyStrip (stripOrd firstLine)
        let rid := match idOf firstLine with
                   | some d => d
                   | none => s2l "item_" ++ natToStr (itemsLen + 1)
        let base : Record :=
          { rid := rid, name := name, address := [], phone := [], phoneDigits := [],
            website := [], zipCode := [], services := [], servicesText := [],
            subcategories := [], availabilityBadges := [], languages := [],
            hours := [], hoursText := [], searchBlob := [] }
        let r := rest.foldl (procLine category) base
        let searchFields := [r.name, r.address, r.servicesText, joinSp r.services,
          joinSp r.subcategories, joinSp r.languages, r.hoursText]
        some { r with searchBlob := pyLower (joinSp (searchFields.filter (fun f => f ≠ []))) }

/-- `data_loader.parse_blocks`. -/
def parse_blocks (text : Str) (category : Str) : List Record :=
  let tc := pyStrip text
  let b1 := splitNumbered tc
  let blocks := if b1.length < 2 then splitSimple tc else b1
  blocks.foldl
    (fun acc b =>
      if pyStrip b = [] then acc
      else
        match parseBlock category acc.length b with
        | some r => acc ++ [r]
        | none => acc) []

end DataLoader

namespace ChatLlama

/-- The `days` dictionary of `chat_llama.detect_day_from_query`, in
insertion order. -/
def dayKeyVals : List (Str × Str) :=
  [ (s2l "monday", s2l "Monday"), (s2l "mon", s2l "Monday"),
    (s2l "tuesday", s2l "Tuesday"), (s2l "tue", s2l "Tuesday"), (s2l "tues", s2l "Tuesday"),
    (s2l "wednesday", s2l "Wednesday"), (s2l "wed", s2l "Wednesday"),
    (s2l "thursday", s2l "Thursday"), (s2l "thu", s2l "Thursday"), (s2l "thurs", s2l "Thursday"),
    (s2l "friday", s2l "Friday"), (s2l "fri", s2l "Friday"),
    (s2l "saturday", s2l "Saturday"), (s2l "sat", s2l "Saturday"),
    (s2l "sunday", s2l "Sunday"), (s2l "sun", s2l "Sunday") ]

/-- `chat_llama.detect_day_from_query`: first day key occurring as a
substring of the lower-cased query, mapped to its capitalized value. -/
def detect_day_from_query (query : Str) : Option Str :=
  (dayKeyVals.find? (fun kv => containsSub kv.1 (pyLower query))).map Prod.snd

/-- The lowercase-to-capitalized day table used by the dict branch of
`parse_day_ranges` (also the `full_days` loop via `capitalize()`). -/
def sevenDays : List (Str × Str) :=
  [ (s2l "monday", s2l "Monday"), (s2l "tuesday", s2l "Tuesday"),
    (s2l "wednesday", s2l "Wednesday"), (s2l "thursday", s2l "Thursday"),
    (s2l "friday", s2l "Friday"), (s2l "saturday", s2l "Saturday"),
    (s2l "sunday", s2l "Sunday") ]

/-- The nine abbreviation keys of the string-mode `day_map` of
`parse_day_ranges`, in insertion order (both regexes alternate over the
same nine tokens in this order). -/
def dayAbbr9 : List Str :=
  [ s2l "mon", s2l "tue", s2l "tues", s2l "wed", s2l "thu", s2l "thurs",
    s2l "fri", s2l "sat", s2l "sun" ]

/-- The string-mode abbreviation-to-capitalized-day map. -/
def abbrMap : List (Str × Str) :=
  [ (s2l "mon", s2l "Monday"), (s2l "tue", s2l "Tuesday"), (s2l "tues", s2l "Tuesday"),
    (s2l "wed", s2l "Wednesday"), (s2l "thu", s2l "Thursday"), (s2l "thurs", s2l "Thursday"),
    (s2l "fri", s2l "Friday"), (s2l "sat", s2l "Saturday"), (s2l "sun", s2l "Sunday") ]

/-- The `hours` argument of `parse_day_ranges`: a structured mapping (from
JSON) or a raw string (`hours_text`). -/
inductive HoursInput where
  | dict (h : List (Str × List TimeRange))
  | str (s : Str)

/-- Match of the range regex
`\b(mon|tue|tues|wed|thu|thurs|fri|sat|sun)\s*[-–]\s*(same)\b` at the
head of `t` (the leading `\b` is handled by the caller's `prevWord`),
with backtracking over the first group's alternatives; returns the two
matched day tokens and the remainder. -/
def rangeAt (t : Str) : Option ((Str × Str) × Str) :=
  firstSome dayAbbr9 (fun a =>
    if hasPre a t then
      let r1 := (t.drop a.length).dropWhile isSpaceCh
      match r1 with
      | c :: r2 =>
          if c = '-' ∨ c.toNat = 8211 then
            let r3 := r2.dropWhile isSpaceCh
            firstSome dayAbbr9 (fun b =>
              if hasPre b r3 ∧ bdyAfter (r3.drop b.length) then some ((a, b), r3.drop b.length)
              else none)
          else none
      | [] => none
    else none)

/-- `re.findall` for the range pattern (non-overlapping, left to right). -/
def rangeScanGo : Nat → Bool → Str → List (Str × Str)
  | 0, _, _ => []
  | _ + 1, _, [] => []
  | fuel + 1, pw, c :: cs =>
      if !pw then
        match rangeAt (c :: cs) with
        | some (g, rest) => g :: rangeScanGo fuel true rest
        | none => rangeScanGo fuel (isWordCh c) cs
      else rangeScanGo fuel (isWordCh c) cs

/-- All range-pattern matches in `t`. -/
def rangeFindAll (t : Str) : List (Str × Str) := rangeScanGo t.length false t

/-- `re.findall` for the individual-day pattern
`\b(mon|tue|tues|wed|thu|thurs|fri|sat|sun)\b`. -/
def indivScanGo : Nat → Bool → Str → List Str
  | 0, _, _ => []
  | _ + 1, _, [] => []
  | fuel + 1, pw, c :: cs =>
      if !pw then
        match altAt dayAbbr9 (c :: cs) with
        | some a => a :: indivScanGo fuel true ((c :: cs).drop a.length)
        | none => indivScanGo fuel (isWordCh c) cs
      else indivScanGo fuel (isWordCh c) cs

/-- All individual-day matches in `t`. -/
def indivFindAll (t : Str) : List Str := indivScanGo t.length false t

/-- Expansion of one matched day range over the nine-key list, with
wraparound (`keys[si:ei+1]`, or `keys[si:] + keys[:ei+1]`), mapped to
capitalized day names (duplicates possible, as in the source). -/
def expandRange (g : Str × Str) : List Str :=
  let si := dayAbbr9.findIdx (fun x => x = g.1)
  let ei := dayAbbr9.findIdx (fun x => x = g.2)
  let keys := if si ≤ ei then (dayAbbr9.drop si).take (ei + 1 - si)
              else dayAbbr9.drop si ++ dayAbbr9.take (ei + 1)
  keys.map (fun k => (abbrMap.lookup k).getD [])

/-- `chat_llama.parse_day_ranges`: structured dict branch (days with a
non-empty range list, in canonical order, capitalized) or string branch
(range expansion, then deduplicated individual matches, then full day
names found as substrings). -/
def parse_day_ranges : HoursInput → List Str
  | HoursInput.dict h =>
      (sevenDays.filter (fun dk =>
        match h.lookup dk.1 with
        | some l => l ≠ []
        | none => false)).map Prod.snd
  | HoursInput.str s =>
      let hl := pyLower s
      let fromRanges := (rangeFindAll hl).foldl (fun acc g => acc ++ expandRange g) []
      let withIndiv := (indivFindAll hl).foldl
        (fun acc d =>
          let v := (abbrMap.lookup d).getD []
          if v ∈ acc then acc else acc ++ [v])
        fromRanges
      sevenDays.foldl
        (fun acc fd => if containsSub fd.1 hl ∧ fd.2 ∉ acc then acc ++ [fd.2] else acc)
        withIndiv

/-- `chat_llama.is_day_available_in_dataset`: some record has the day in
its parsed day availability, preferring `hours_text` over the structured
`hours` mapping; an item with neither is skipped; "All" or an empty day
is never available. (The `day_lower` local of the source is dead code.) -/
def is_day_available_in_dataset (day : Str) (items : List Record) : Bool :=
  if day = [] ∨ day = s2l "All" then false
  else
    items.any (fun item =>
      if item.hoursText ≠ [] then decide (day ∈ parse_day_ranges (HoursInput.str item.hoursText))
      else if item.hours ≠ [] then decide (day ∈ parse_day_ranges (HoursInput.dict item.hours))
      else false)

/-- The day-filter selection of `chat_llama.respond_to_query` (source
lines 917-937): a detected day is kept only when available in the
dataset; the effective filter falls back to the session value and then to
the sentinel "All" (`df = detected_day or session or "All"`). -/
def respond_day_filter (query : Str) (items : List Record) (sessionDay : Option Str) : Str :=
  let detected := detect_day_from_query query
  let honored :=
    match detected with
    | some d => if is_day_available_in_dataset d items then some d else none
    | none => none
  match honored with
  | some d => d
  | none =>
      match sessionDay with
      | some sd => if sd = [] then s2l "All" else sd
      | none => s2l "All"

end ChatLlama

/-! ### Properties of the stable sort and the fraction operations -/

theorem mem_stIns {α : Type} {keep : α → α → Bool} {x a : α} {l : List α} :
    a ∈ stIns keep x l ↔ a = x ∨ a ∈ l := by
  induction l with
  | nil => simp [stIns]
  | cons y ys ih =>
    unfold stIns
    cases h : keep y x with
    | true =>
        simp only [h, if_true, List.mem_cons, ih]
        tauto
    | false =>
        simp only [h, Bool.false_eq_true, if_false, List.mem_cons]

theorem stIns_decomp {α : Type} (keep : α → α → Bool) (x : α) (l : List α) :
    ∃ l₁ l₂, l = l₁ ++ l₂ ∧ stIns keep x l = l₁ ++ x :: l₂ := by
  induction l with
  | nil => exact ⟨[], [], rfl, rfl⟩
  | cons y ys ih =>
    cases h : keep y x with
    | true =>
        obtain ⟨l₁, l₂, he, hi⟩ := ih
        refine ⟨y :: l₁, l₂, by simp [he], ?_⟩
        simpa [stIns, h] using hi
    | false => exact ⟨[], y :: ys, rfl, by simp [stIns, h]⟩

theorem sublist_stIns {α : Type} (keep : α → α → Bool) (x : α) {m l : List α}
    (h : m.Sublist l) : m.Sublist (stIns keep x l) := by
  obtain ⟨l₁, l₂, he, hi⟩ := stIns_decomp keep x l
  rw [hi]
  subst he
  exact h.trans ((List.sublist_cons_self x l₂).append_left l₁)

theorem pairwise_stIns {α : Type} {keep : α → α → Bool}
    (htot : ∀ a b, keep a b || keep b a)
    (htr : ∀ a b c, keep a b = true → keep b c = true → keep a c = true)
    (x : α) {l : List α} (h : l.Pairwise (fun a b => keep a b = true)) :
    (stIns keep x l).Pairwise (fun a b => keep a b = true) := by
  induction l with
  | nil => simp [stIns]
  | cons y ys ih =>
    rcases List.pairwise_cons.mp h with ⟨hy, hys⟩
    unfold stIns
    by_cases hk : keep y x = true
    · simp only [hk, if_true]
      refine List.pairwise_cons.mpr ⟨?_, ih hys⟩
      intro z hz
      rcases mem_stIns.mp hz with rfl | hz'
      · exact hk
      · exact hy z hz'
    · simp only [hk, if_false]
      have hxy : keep x y = true := by
        have := htot y x
        cases hxy' : keep x y <;> simp_all
      refine List.pairwise_cons.mpr ⟨?_, List.pairwise_cons.mpr ⟨hy, hys⟩⟩
      intro z hz
      rcases List.mem_cons.mp hz with rfl | hz'
      · exact hxy
      · exact htr x y z hxy (hy z hz')

theorem stSort_go_pairwise {α : Type} {keep : α → α → Bool}
    (htot : ∀ a b, keep a b || keep b a)
    (htr : ∀ a b c, keep a b = true → keep b c = true → keep a c = true) :
    ∀ (l acc : List α), acc.Pairwise (fun a b => keep a b = true) →
      (l.foldl (fun acc x => stIns keep x acc) acc).Pairwise (fun a b => keep a b = true)
  | [], _, h => h
  | a :: l, acc, h =>
      stSort_go_pairwise htot htr l (stIns keep a acc) (pairwise_stIns htot htr a h)

/-- The stable sort is sorted with respect to a total transitive
comparator. -/
theorem stSort_pairwise {α : Type} {keep : α → α → Bool}
    (htot : ∀ a b, keep a b || keep b a)
    (htr : ∀ a b c, keep a b = true → keep b c = true → keep a c = true)
    (l : List α) : (stSort keep l).Pairwise (fun a b => keep a b = true) :=
  stSort_go_pairwise htot htr l [] (List.Pairwise.nil)

theorem mem_stSort_go {α : Type} {keep : α → α → Bool} {a : α} :
    ∀ {l acc : List α}, a ∈ l.foldl (fun acc x => stIns keep x acc) acc ↔ a ∈ acc ∨ a ∈ l := by
  intro l
  induction l with
  | nil => simp
  | cons x xs ih =>
    intro acc
    simp only [List.foldl_cons, ih, mem_stIns, List.mem_cons]
    tauto

/-- The stable sort is a permutation (membership view). -/
theorem mem_stSort {α : Type} {keep : α → α → Bool} {a : α} {l : List α} :
    a ∈ stSort keep l ↔ a ∈ l := by
  unfold stSort
  rw [mem_stSort_go]
  simp

theorem stIns_key {α : Type} {keep : α → α → Bool}
    (htr : ∀ a b c, keep a b = true → keep b c = true → keep a c = true)
    {x y : α} (hxy : keep x y = true) :
    ∀ {acc : List α}, acc.Pairwise (fun a b => keep a b = true) →
      [x].Sublist acc → [x, y].Sublist (stIns keep y acc) := by
  intro acc
  induction acc with
  | nil => intro _ hx; simp at hx
  | cons z zs ih =>
    intro hs hx
    rcases List.pairwise_cons.mp hs with ⟨hz, hzs⟩
    unfold stIns
    by_cases hk : keep z y = true
    · simp only [hk, if_true]
      rcases List.mem_cons.mp (List.singleton_sublist.mp hx) with rfl | hx'
      · exact List.Sublist.cons₂ x
          (List.singleton_sublist.mpr (mem_stIns.mpr (Or.inl rfl)))
      · exact List.Sublist.cons z (ih hzs (List.singleton_sublist.mpr hx'))
    · exfalso
      rcases List.mem_cons.mp (List.singleton_sublist.mp hx) with rfl | hx'
      · exact hk hxy
      · exact hk (htr z x y (hz x hx') hxy)

theorem stSort_go_stable {α : Type} {keep : α → α → Bool}
    (htot : ∀ a b, keep a b || keep b a)
    (htr : ∀ a b c, keep a b = true → keep b c = true → keep a c = true)
    {x y : α} (hxy : keep x y = true) :
    ∀ (l acc : List α), acc.Pairwise (fun a b => keep a b = true) →
      ([x, y].Sublist acc ∨ ([x].Sublist acc ∧ [y].Sublist l) ∨ [x, y].Sublist l) →
      [x, y].Sublist (l.foldl (fun acc x => stIns keep x acc) acc) := by
  intro l
  induction l with
  | nil =>
    intro acc hs hc
    rcases hc with h1 | ⟨_, hy⟩ | h3
    · exact h1
    · simp at hy
    · simp at h3
  | cons a l' ih =>
    intro acc hs hc
    simp only [List.foldl_cons]
    apply ih (stIns keep a acc) (pairwise_stIns htot htr a hs)
    rcases hc with h1 | ⟨hx, hy⟩ | h3
    · exact Or.inl (sublist_stIns keep a h1)
    · rcases List.mem_cons.mp (List.singleton_sublist.mp hy) with rfl | hy'
      · exact Or.inl (stIns_key htr hxy hs hx)
      · exact Or.inr (Or.inl ⟨sublist_stIns keep a hx, List.singleton_sublist.mpr hy'⟩)
    · cases h3 with
      | cons _ h => exact Or.inr (Or.inr h)
      | cons₂ _ h =>
          exact Or.inr (Or.inl
            ⟨List.singleton_sublist.mpr (mem_stIns.mpr (Or.inl rfl)), h⟩)

/-- Stability of the stable sort: two elements in input order whose
comparator allows the first to stay in front (true in particular for
tied keys) remain in that order. -/
theorem stSort_stable {α : Type} {keep : α → α → Bool}
    (htot : ∀ a b, keep a b || keep b a)
    (htr : ∀ a b c, keep a b = true → keep b c = true → keep a c = true)
    {x y : α} {l : List α} (hxy : keep x y = true) (h : [x, y].Sublist l) :
    [x, y].Sublist (stSort keep l) :=
  stSort_go_stable htot htr hxy l [] List.Pairwise.nil (Or.inr (Or.inr h))

theorem Frac.le_pyMaxF_left (a b : Frac) : a.Le (pyMaxF a b) := by
  unfold pyMaxF Frac.blt
  split
  · next h => exact Int.le_of_lt (of_decide_eq_true h)
  · exact Frac.le_refl a

theorem Frac.le_pyMaxF_right (a b : Frac) : b.Le (pyMaxF a b) := by
  unfold pyMaxF Frac.blt
  split
  · exact Frac.le_refl b
  · next h =>
      have := of_decide_eq_false (Bool.not_eq_true _ ▸ h)
      exact Int.not_lt.mp this

theorem foldl_pyMaxF_grow {α : Type} (f : α → Frac) :
    ∀ (l : List α) (acc : Frac), acc.Le (l.foldl (fun a e => pyMaxF a (f e)) acc)
  | [], acc => Frac.le_refl acc
  | a :: l, acc =>
      Frac.le_trans (Frac.le_pyMaxF_left acc (f a))
        (foldl_pyMaxF_grow f l (pyMaxF acc (f a)))

theorem mem_le_foldl_pyMaxF {α : Type} (f : α → Frac) {x : α} :
    ∀ (l : List α) (acc : Frac), x ∈ l → (f x).Le (l.foldl (fun a e => pyMaxF a (f e)) acc) := by
  intro l
  induction l with
  | nil => intro _ h; simp at h
  | cons a l ih =>
    intro acc h
    rcases List.mem_cons.mp h with rfl | h'
    · exact Frac.le_trans (Frac.le_pyMaxF_right acc (f x))
        (foldl_pyMaxF_grow f l (pyMaxF acc (f x)))
    · exact ih (pyMaxF acc (f a)) h'

theorem sumF_go_le : ∀ {l1 l2 : List Frac}, List.Forall₂ Frac.Le l1 l2 →
    ∀ {a1 a2 : Frac}, a1.Le a2 → (l1.foldl Frac.add a1).Le (l2.foldl Frac.add a2) := by
  intro l1 l2 hf
  induction hf with
  | nil => intro a1 a2 ha; simpa using ha
  | cons hxy _ ih =>
      intro a1 a2 ha
      simp only [List.foldl_cons]
      exact ih (Frac.add_le_add ha hxy)

/-- Pointwise monotone mapped sums. -/
theorem sumF_map_le {α : Type} (l : List α) (f g : α → Frac)
    (h : ∀ a ∈ l, (f a).Le (g a)) : (sumF (l.map f)).Le (sumF (l.map g)) := by
  unfold sumF
  refine sumF_go_le ?_ (Frac.le_refl fr0)
  induction l with
  | nil => simp
  | cons a l ih =>
      simp only [List.map_cons]
      exact List.Forall₂.cons (h a (by simp))
        (ih (fun b hb => h b (by simp [hb])))

theorem hasPre_append {n h e : Str} (hp : hasPre n h = true) : hasPre n (h ++ e) = true := by
  induction n generalizing h with
  | nil => simp [hasPre]
  | cons a as ih =>
    cases h with
    | nil => simp [hasPre] at hp
    | cons b bs =>
      simp only [hasPre, Bool.and_eq_true] at hp ⊢
      exact ⟨hp.1, ih hp.2⟩

theorem containsSub_nil_left (e : Str) : containsSub [] e = true := by
  cases e <;> simp [containsSub, hasPre]

/-- Substring containment is preserved by extending the subject on the
right (the form of query extension in the monotonicity claims). -/
theorem containsSub_append {n h e : Str} (hc : containsSub n h = true) :
    containsSub n (h ++ e) = true := by
  induction h with
  | nil =>
    have : n = [] := by
      cases n with
      | nil => rfl
      | cons a as => simp [containsSub, hasPre] at hc
    subst this
    exact containsSub_nil_left e
  | cons c t ih =>
    simp only [containsSub, Bool.or_eq_true] at hc ⊢
    rcases hc with hp | hc'
    · exact Or.inl (hasPre_append hp)
    · exact Or.inr (ih hc')

theorem Frac.le_of_blt {x y : Frac} (h : x.blt y = true) : x.Le y :=
  Int.le_of_lt (of_decide_eq_true h)

theorem Frac.le_of_ble {x y : Frac} (h : x.ble y = true) : x.Le y :=
  of_decide_eq_true h

theorem Frac.ble_of_le {x y : Frac} (h : x.Le y) : x.ble y = true :=
  decide_eq_true h

theorem Frac.le_of_beq {x y : Frac} (h : x.beq y = true) : x.Le y :=
  Int.le_of_eq (of_decide_eq_true h)

theorem Frac.ge_of_beq {x y : Frac} (h : x.beq y = true) : y.Le x :=
  Int.le_of_eq (of_decide_eq_true h).symm

theorem keepScore_total (x y : Frac × Record) :
    SearchPy.keepScore x y || SearchPy.keepScore y x := by
  unfold SearchPy.keepScore Frac.ble
  rcases Frac.le_total y.1 x.1 with h | h <;> simp [h]

theorem keepScore_trans (x y z : Frac × Record)
    (h1 : SearchPy.keepScore x y = true) (h2 : SearchPy.keepScore y z = true) :
    SearchPy.keepScore x z = true := by
  unfold SearchPy.keepScore at *
  exact Frac.ble_of_le (Frac.le_trans (Frac.le_of_ble h2) (Frac.le_of_ble h1))

theorem keyLeB_total (p q : Bool × Frac) : SearchPy.keyLeB p q || SearchPy.keyLeB q p := by
  rcases p with ⟨b1, s1⟩
  rcases q with ⟨b2, s2⟩
  cases b1 <;> cases b2 <;> simp only [SearchPy.keyLeB, Bool.or_eq_true] <;>
      simp only [if_pos rfl, decide_eq_true_eq, reduceIte, Bool.true_eq_false,
        Bool.false_eq_true, Bool.or_eq_true] <;>
    try rcases Frac.le_total s1 s2 with h | h <;> simp [Frac.ble, h]

theorem keyLeB_trans (p q r : Bool × Frac)
    (h1 : SearchPy.keyLeB p q = true) (h2 : SearchPy.keyLeB q r = true) :
    SearchPy.keyLeB p r = true := by
  rcases p with ⟨b1, s1⟩
  rcases q with ⟨b2, s2⟩
  rcases r with ⟨b3, s3⟩
  cases b1 <;> cases b2 <;> cases b3 <;>
      simp_all only [SearchPy.keyLeB, if_pos rfl, reduceIte, Bool.true_eq_false,
        Bool.false_eq_true, decide_eq_true_eq] <;>
    exact Frac.ble_of_le (Frac.le_trans (Frac.le_of_ble h1) (Frac.le_of_ble h2))

theorem keepTiming_total (now : Now) (x y : Frac × Record) :
    SearchPy.keepTiming now x y || SearchPy.keepTiming now y x :=
  keyLeB_total (SearchPy.timingKey now y) (SearchPy.timingKey now x)

theorem keepTiming_trans (now : Now) (x y z : Frac × Record)
    (h1 : SearchPy.keepTiming now x y = true) (h2 : SearchPy.keepTiming now y z = true) :
    SearchPy.keepTiming now x z = true :=
  keyLeB_trans _ _ _ h2 h1

theorem pyLowerChar_idem (c : Char) : pyLowerChar (pyLowerChar c) = pyLowerChar c := by
  unfold pyLowerChar
  by_cases h : 65 ≤ c.toNat ∧ c.toNat ≤ 90
  · rw [if_pos h]
    have hv : (c.toNat + 32).isValidChar := by
      left
      have := h.2
      omega
    have ht : (Char.ofNat (c.toNat + 32)).toNat = c.toNat + 32 := by
      unfold Char.ofNat
      rw [dif_pos hv]
      rfl
    rw [if_neg]
    rw [ht]
    have := h.1
    omega
  · rw [if_neg h, if_neg h]

theorem pyLower_idem (s : Str) : pyLower (pyLower s) = pyLower s := by
  unfold pyLower
  rw [List.map_map]
  exact List.map_congr_left (fun c _ => pyLowerChar_idem c)

/-- The fuzzy score only consumes the lower-cased query, so lower-casing
the query first does not change it. -/
theorem fuzzy_score_lower (r : Record) (q : Str) :
    SearchPy.fuzzy_score r (pyLower q) = SearchPy.fuzzy_score r q := by
  unfold SearchPy.fuzzy_score
  rw [pyLower_idem]

/-- Monotonicity of a 0-or-bonus conditional under a condition
implication. -/
theorem iteF_mono {b1 b2 : Bool} (v : Frac) (himp : b1 = true → b2 = true)
    (hv : fr0.Le v) : (if b1 then v else fr0).Le (if b2 then v else fr0) := by
  cases hb1 : b1 with
  | true => rw [himp hb1]; simp only [if_true]; exact Frac.le_refl v
  | false =>
    cases hb2 : b2 with
    | true => simpa using hv
    | false => simp only [Bool.false_eq_true, if_false]; exact Frac.le_refl fr0

theorem synListHit_mono {ql ext stL : Str} {syns : List Str}
    (h : SearchPy.synListHit ql stL syns = true) :
    SearchPy.synListHit (ql ++ ext) stL syns = true := by
  unfold SearchPy.synListHit at *
  rcases List.any_eq_true.mp h with ⟨syn, hmem, hsyn⟩
  simp only [Bool.and_eq_true] at hsyn
  refine List.any_eq_true.mpr ⟨syn, hmem, ?_⟩
  simp only [Bool.and_eq_true]
  exact ⟨containsSub_append hsyn.1, hsyn.2⟩

/-! ### Concrete inputs used by the witnesses and counterexamples -/

/-- A fixed concrete wall-clock time: Monday 10:00. -/
def nowMon : Now := ⟨s2l "monday", 10, 0⟩

/-- An all-default record with all fields empty. -/
def recEmpty : Record :=
  { rid := [], name := [], address := [], phone := [], phoneDigits := [], website := [],
    zipCode := [], services := [], servicesText := [], subcategories := [],
    availabilityBadges := [], languages := [], hours := [], hoursText := [], searchBlob := [] }

/-- Record for the C1 counterexample: the word "cd" occurs exactly in its
name; name and search blob are "ab cd". -/
def recC1 : Record := { recEmpty with rid := s2l "1", name := s2l "ab cd", searchBlob := s2l "ab cd" }

/-- Record for the C8 witness. -/
def recC8 : Record := { recEmpty with rid := s2l "8", name := s2l "n", searchBlob := s2l "n" }

/-- Record for the C7 witness: open Saturdays only. -/
def recSat : Record := { recEmpty with rid := s2l "7", name := s2l "s", hoursText := s2l "sat 10am-2pm" }

/-! ### The claims -/

/-- Claim C8: for every record list and filter configuration, a query that
is empty or whitespace-only makes rank_items return the empty list. -/
theorem C8_empty_query_rank (now : Now) (items : List Record)
    (query category zf lf sf df : Str) (h : pyStrip query = []) :
    SearchPy.rank_items now items query category zf lf sf df = [] := by
  unfold SearchPy.rank_items
  rw [if_pos (Or.inr h)]

/-- Witness for C8 at a whitespace-only query and a non-empty dataset. -/
theorem C8_witness :
    SearchPy.rank_items nowMon [recC8] (s2l "   ") (s2l "Healthcare")
      (s2l "All") (s2l "All") (s2l "All") (s2l "All") = [] :=
  C8_empty_query_rank nowMon [recC8] (s2l "   ") (s2l "Healthcare")
    (s2l "All") (s2l "All") (s2l "All") (s2l "All") (by decide)

/-- Claim C10: the expansion list of expand_query_terms contains the
lower-cased original query itself, so the maximal fuzzy score over all
expanded variants (as folded in rank_items) is at least the fuzzy score
of the record against the original query alone. -/
theorem C10_expansion_dominates (query : Str) (r : Record) :
    pyLower query ∈ SearchPy.expand_query_terms query ∧
    (SearchPy.fuzzy_score r query).Le
      ((SearchPy.expand_query_terms query).foldl
        (fun acc eq => pyMaxF acc (SearchPy.fuzzy_score r eq)) fr0) := by
  have hmem : pyLower query ∈ SearchPy.expand_query_terms query := by
    unfold SearchPy.expand_query_terms
    exact List.mem_cons_self _ _
  refine ⟨hmem, ?_⟩
  have := mem_le_foldl_pyMaxF (SearchPy.fuzzy_score r)
    (SearchPy.expand_query_terms query) fr0 hmem
  rwa [fuzzy_score_lower] at this

/-- Claim C7: a day detected in the query is applied as the day filter
only when the dataset has it available; an unavailable detected day is
discarded and (with no sidebar day selection) no day filter is applied,
while an available one becomes the filter even over a sidebar value. -/
theorem C7_day_fails_safe (query : Str) (items : List Record) (sessionDay : Option Str)
    (d : Str) (hdet : ChatLlama.detect_day_from_query query = some d) :
    (ChatLlama.is_day_available_in_dataset d items = false →
      ChatLlama.respond_day_filter query items none = s2l "All") ∧
    (ChatLlama.is_day_available_in_dataset d items = true →
      ChatLlama.respond_day_filter query items sessionDay = d) := by
  constructor <;> intro hav <;> simp [ChatLlama.respond_day_filter, hdet, hav]

/-- Witness for C7: "esl monday" detects Monday, the dataset is open only
on Saturdays, so the day filter stays "All". -/
theorem C7_witness :
    ChatLlama.respond_day_filter (s2l "esl monday") [recSat] none = s2l "All" :=
  (C7_day_fails_safe (s2l "esl monday") [recSat] none (s2l "Monday")
    (by decide)).1 (by decide)

set_option maxRecDepth 40000 in
/-- Claim C1 is false on the code (counterexample): extending the query
"ab cd" with the additional keyword "cd" — a word occurring exactly in
the record's name — strictly lowers the score rank_items assigns to the
record (the whole-query substring bonuses and the fuzzy base drop). -/
theorem C1_counterexample :
    (SearchPy.rank_items nowMon [recC1] (s2l "ab cd") (s2l "x")
        (s2l "All") (s2l "All") (s2l "All") (s2l "All")).map Prod.snd = [recC1] ∧
    (SearchPy.rank_items nowMon [recC1] (s2l "ab cd cd") (s2l "x")
        (s2l "All") (s2l "All") (s2l "All") (s2l "All")).map Prod.snd = [recC1] ∧
    ((SearchPy.rank_items nowMon [recC1] (s2l "ab cd cd") (s2l "x")
        (s2l "All") (s2l "All") (s2l "All") (s2l "All")).headD (fr0, recC1)).1.blt
      ((SearchPy.rank_items nowMon [recC1] (s2l "ab cd") (s2l "x")
        (s2l "All") (s2l "All") (s2l "All") (s2l "All")).headD (fr0, recC1)).1 = true ∧
    s2l "cd" ∈ pySplit recC1.name ∧
    s2l "ab cd cd" = s2l "ab cd" ++ ' ' :: s2l "cd" := by
  decide

/-- Claim C1 (amended): the query-membership bonuses of rank_items
(service tags, subcategories, synonym co-occurrence, conceptual matches)
are monotone under extending the query on the right; the total score is
not monotone, because the whole-query exact-substring and name bonuses
and the fuzzy base can drop (see the counterexample). -/
theorem C1_amended_bonus_monotone (item : Record) (ql ext : Str) :
    (SearchPy.serviceBonus item.services ql).Le
      (SearchPy.serviceBonus item.services (ql ++ ext)) ∧
    (SearchPy.subcatBonus item.subcategories ql).Le
      (SearchPy.subcatBonus item.subcategories (ql ++ ext)) ∧
    (SearchPy.synBonus (pyLower item.servicesText) ql).Le
      (SearchPy.synBonus (pyLower item.servicesText) (ql ++ ext)) ∧
    (SearchPy.conceptBonus item.searchBlob ql).Le
      (SearchPy.conceptBonus item.searchBlob (ql ++ ext)) := by
  refine ⟨?_, ?_, ?_, ?_⟩
  · unfold SearchPy.serviceBonus
    exact sumF_map_le _ _ _ (fun s _ =>
      iteF_mono _ (fun h => containsSub_append h) (by decide))
  · unfold SearchPy.subcatBonus
    exact sumF_map_le _ _ _ (fun s _ =>
      iteF_mono _ (fun h => containsSub_append h) (by decide))
  · unfold SearchPy.synBonus
    by_cases hst : pyLower item.servicesText = []
    · rw [if_pos hst, if_pos hst]
      exact Frac.le_refl fr0
    · rw [if_neg hst, if_neg hst]
      exact sumF_map_le _ _ _ (fun bs _ =>
        iteF_mono _ (fun h => synListHit_mono h) (by decide))
  · unfold SearchPy.conceptBonus
    refine sumF_map_le _ _ _ (fun cr _ => iteF_mono _ (fun h => ?_) (by decide))
    simp only [Bool.and_eq_true] at h ⊢
    exact ⟨containsSub_append h.1, h.2⟩

/-- Record for the C5 counterexample (name "b", listed first). -/
def recB : Record := { recEmpty with rid := s2l "b1", name := s2l "b", searchBlob := s2l "ab" }

/-- Record for the C5 counterexample (name "a", listed second). -/
def recA : Record := { recEmpty with rid := s2l "a1", name := s2l "a", searchBlob := s2l "ab" }

set_option maxRecDepth 40000 in
/-- Claim C5 is false on the code (counterexample): on the timing-free
query "ab", two records with equal scores come back from rank_items in
dataset order (names "b" then "a"), not in ascending name order — the
score sort of search.rank_items is a plain stable sort with no name
tie-break. -/
theorem C5_counterexample :
    (SearchPy.rank_items nowMon [recB, recA] (s2l "ab") (s2l "x")
        (s2l "All") (s2l "All") (s2l "All") (s2l "All")).map (fun x => x.2.name) =
      [s2l "b", s2l "a"] ∧
    (match SearchPy.rank_items nowMon [recB, recA] (s2l "ab") (s2l "x")
        (s2l "All") (s2l "All") (s2l "All") (s2l "All") with
     | [x, y] => x.1.beq y.1
     | _ => false) = true ∧
    SearchPy.wantsTiming (s2l "ab") = false ∧
    strLe (s2l "b") (s2l "a") = false := by
  decide

/-- Claim C5 (amended): for a query with no timing intent (and a
non-blank query), rank_items is sorted by score descending, and records
with equal scores appear in the order they were scored (dataset order —
Python's sort is stable); the name tie-break of the spec exists only in
the legacy chat_llama.rank_items, not in search.rank_items. -/
theorem C5_amended_stable_sort (now : Now) (items : List Record)
    (query category zf lf sf df : Str)
    (ht : SearchPy.wantsTiming query = false) (hq : pyStrip query ≠ []) :
    ((SearchPy.rank_items now items query category zf lf sf df).Pairwise
        (fun x y => y.1.Le x.1)) ∧
    (∀ x y : Frac × Record, x.1.beq y.1 = true →
      [x, y].Sublist (SearchPy.scoredItems now items query category zf lf sf df) →
      (mkF 1 20).Lt x.1 → (mkF 1 20).Lt y.1 →
      [x, y].Sublist (SearchPy.rank_items now items query category zf lf sf df)) := by
  by_cases hempty : items = []
  · subst hempty
    constructor
    · simp [SearchPy.rank_items]
    · intro x y _ hsub _ _
      simp [SearchPy.scoredItems] at hsub
  · have hcond : ¬(items = [] ∨ pyStrip query = []) := by
      rintro (h | h)
      · exact hempty h
      · exact hq h
    have hout : SearchPy.rank_items now items query category zf lf sf df =
        List.filter (fun x => (mkF 1 20).blt x.1)
          (stSort SearchPy.keepScore
            (SearchPy.scoredItems now items query category zf lf sf df)) := by
      unfold SearchPy.rank_items
      rw [if_neg hcond, ht]
      simp
    rw [hout]
    constructor
    · refine List.Pairwise.imp (fun h => Frac.le_of_ble h) ?_
      exact ((stSort_pairwise keepScore_total keepScore_trans _).sublist
        (List.filter_sublist _))
    · intro x y hbeq hsub hx hy
      have hkeep : SearchPy.keepScore x y = true := Frac.ble_of_le (Frac.ge_of_beq hbeq)
      have hst := stSort_stable keepScore_total keepScore_trans hkeep hsub
      have hfil := hst.filter (fun z => (mkF 1 20).blt z.1)
      have hxy : List.filter (fun z => (mkF 1 20).blt z.1) [x, y] = [x, y] := by
        simp [List.filter, decide_eq_true hx, decide_eq_true hy, Frac.blt]
      rwa [hxy] at hfil

set_option maxRecDepth 40000 in
/-- Witness for the amended C5: on the concrete equal-score pair of the
counterexample the two scored entries are kept in order in the output. -/
theorem C5_amended_witness :
    [(SearchPy.scoreItem nowMon (SearchPy.extract_key_terms (s2l "ab"))
        (SearchPy.expand_query_terms (s2l "ab")) (s2l "ab") recB, recB),
     (SearchPy.scoreItem nowMon (SearchPy.extract_key_terms (s2l "ab"))
        (SearchPy.expand_query_terms (s2l "ab")) (s2l "ab") recA, recA)].Sublist
      (SearchPy.rank_items nowMon [recB, recA] (s2l "ab") (s2l "x")
        (s2l "All") (s2l "All") (s2l "All") (s2l "All")) :=
  (C5_amended_stable_sort nowMon [recB, recA] (s2l "ab") (s2l "x")
      (s2l "All") (s2l "All") (s2l "All") (s2l "All") (by decide) (by decide)).2
    _ _ (by decide) (by decide) (by decide) (by decide)

/-- Claim C2: a record passing the four hard filters is never excluded
from the scored result of search.rank_items merely because none of the
category-specific must-have patterns match its search text: it is still
scored, and (when its score clears the 0.05 threshold on a non-blank
query) appears in the output. -/
theorem C2_must_have_is_soft (now : Now) (items : List Record)
    (query category zf lf sf df : Str) (item : Record)
    (hmem : item ∈ items)
    (hfil : SearchPy.passesFilters zf lf sf df item = true)
    (_hmh : ∀ p ∈ SearchPy.must_have_patterns query category,
      patSearch p item.searchBlob = false) :
    item ∈ (SearchPy.scoredItems now items query category zf lf sf df).map Prod.snd ∧
    (pyStrip query ≠ [] →
      (mkF 1 20).Lt (SearchPy.scoreItem now (SearchPy.extract_key_terms query)
        (SearchPy.expand_query_terms query) query item) →
      item ∈ (SearchPy.rank_items now items query category zf lf sf df).map Prod.snd) := by
  have hpair : (SearchPy.scoreItem now (SearchPy.extract_key_terms query)
      (SearchPy.expand_query_terms query) query item, item) ∈
      SearchPy.scoredItems now items query category zf lf sf df := by
    unfold SearchPy.scoredItems
    exact List.mem_filterMap.mpr ⟨item, hmem, by rw [if_pos hfil]⟩
  constructor
  · exact List.mem_map.mpr ⟨_, hpair, rfl⟩
  · intro hq hlt
    have hcond : ¬(items = [] ∨ pyStrip query = []) := by
      rintro (h | h)
      · exact List.ne_nil_of_mem hmem h
      · exact hq h
    unfold SearchPy.rank_items
    rw [if_neg hcond]
    cases hwt : SearchPy.wantsTiming query <;>
      simp only [hwt, Bool.false_eq_true, if_false, if_true] <;>
      exact List.mem_map.mpr ⟨_, List.mem_filter.mpr
        ⟨mem_stSort.mpr hpair, decide_eq_true hlt⟩, rfl⟩

/-- Record for the C2 witness: its search text matches none of the
dental must-have patterns triggered by the query "dental x". -/
def recC2 : Record := { recEmpty with rid := s2l "2", name := s2l "zz", searchBlob := s2l "x" }

set_option maxRecDepth 100000 in
/-- Witness for C2: with query "dental x" in category Healthcare the
dental must-have pattern is active and does not match the record's blob,
yet the record is scored and ranked. -/
theorem C2_witness :
    recC2 ∈ (SearchPy.scoredItems nowMon [recC2] (s2l "dental x") (s2l "Healthcare")
        (s2l "All") (s2l "All") (s2l "All") (s2l "All")).map Prod.snd ∧
    recC2 ∈ (SearchPy.rank_items nowMon [recC2] (s2l "dental x") (s2l "Healthcare")
        (s2l "All") (s2l "All") (s2l "All") (s2l "All")).map Prod.snd := by
  have h := C2_must_have_is_soft nowMon [recC2] (s2l "dental x") (s2l "Healthcare")
    (s2l "All") (s2l "All") (s2l "All") (s2l "All") recC2
    (by decide) (by decide) (by decide)
  exact ⟨h.1, h.2 (by decide) (by decide)⟩

/-- Claim C3: every record in the output of search.rank_items satisfies
an active day filter (its hours mapping has the day as a key), and when
every filter is the sentinel "All" the filtering step excludes nothing
(every input record is scored). -/
theorem C3_hours_filter_sound (now : Now) (items : List Record)
    (query category zf lf sf df : Str) :
    (∀ r ∈ (SearchPy.rank_items now items query category zf lf sf df).map Prod.snd,
        df ≠ s2l "All" → (r.hours.lookup df).isSome = true) ∧
    (zf = s2l "All" → lf = s2l "All" → sf = s2l "All" → df = s2l "All" →
      ∀ item ∈ items,
        item ∈ (SearchPy.scoredItems now items query category zf lf sf df).map Prod.snd) := by
  constructor
  · intro r hr hdf
    by_cases hcond : items = [] ∨ pyStrip query = []
    · unfold SearchPy.rank_items at hr
      rw [if_pos hcond] at hr
      simp at hr
    · unfold SearchPy.rank_items at hr
      rw [if_neg hcond] at hr
      obtain ⟨p, hpfil, hsnd⟩ := List.mem_map.mp hr
      have hpsort := (List.mem_filter.mp hpfil).1
      have hpscored : p ∈ SearchPy.scoredItems now items query category zf lf sf df := by
        cases hwt : SearchPy.wantsTiming query <;>
          simp only [hwt, Bool.false_eq_true, if_false, if_true] at hpsort <;>
          exact mem_stSort.mp hpsort
      unfold SearchPy.scoredItems at hpscored
      obtain ⟨a, _, heq⟩ := List.mem_filterMap.mp hpscored
      cases hpf : SearchPy.passesFilters zf lf sf df a with
      | false => rw [if_neg (by simp [hpf])] at heq; exact absurd heq (by simp)
      | true =>
          rw [if_pos hpf] at heq
          have ha : a = r := by
            have hpe := Option.some.inj heq
            rw [← hsnd, ← hpe]
          simp only [SearchPy.passesFilters, Bool.and_eq_true, Bool.or_eq_true,
            decide_eq_true_eq] at hpf
          rcases hpf.2 with hAll | hsome
          · exact absurd hAll hdf
          · rwa [ha] at hsome
  · intro h1 h2 h3 h4 item hmem
    subst h1 h2 h3 h4
    have hfil : SearchPy.passesFilters (s2l "All") (s2l "All") (s2l "All") (s2l "All") item
        = true := by
      simp [SearchPy.passesFilters]
    refine List.mem_map.mpr ⟨(SearchPy.scoreItem now (SearchPy.extract_key_terms query)
      (SearchPy.expand_query_terms query) query item, item), ?_, rfl⟩
    unfold SearchPy.scoredItems
    exact List.mem_filterMap.mpr ⟨item, hmem, by rw [if_pos hfil]⟩

/-- Record for the C3/C4 witnesses: open Monday 9:00-17:00. -/
def recMon : Record :=
  { recEmpty with
    rid := s2l "m"
    name := s2l "m"
    searchBlob := s2l "ab"
    hours := [(s2l "monday", [((9, 0), (17, 0))])] }

set_option maxRecDepth 40000 in
/-- Witness for C3: with day filter "monday" the returned record has the
key; with all filters "All" the record is scored. -/
theorem C3_witness :
    (recMon.hours.lookup (s2l "monday")).isSome = true ∧
    recMon ∈ (SearchPy.scoredItems nowMon [recMon] (s2l "ab") (s2l "x")
        (s2l "All") (s2l "All") (s2l "All") (s2l "All")).map Prod.snd :=
  ⟨(C3_hours_filter_sound nowMon [recMon] (s2l "ab") (s2l "x")
      (s2l "All") (s2l "All") (s2l "All") (s2l "monday")).1 recMon (by decide) (by decide),
   (C3_hours_filter_sound nowMon [recMon] (s2l "ab") (s2l "x")
      (s2l "All") (s2l "All") (s2l "All") (s2l "All")).2 rfl rfl rfl rfl recMon
     (by decide)⟩

/-- The rank_items output of a timing query is sorted by the comparator
of the timing sort (open-now status first, then score). -/
theorem rank_items_timing_pairwise (now : Now) (items : List Record)
    (query category zf lf sf df : Str) (ht : SearchPy.wantsTiming query = true) :
    (SearchPy.rank_items now items query category zf lf sf df).Pairwise
      (fun x y => SearchPy.keepTiming now x y = true) := by
  by_cases hcond : items = [] ∨ pyStrip query = []
  · unfold SearchPy.rank_items
    rw [if_pos hcond]
    exact List.Pairwise.nil
  · unfold SearchPy.rank_items
    rw [if_neg hcond, ht]
    simp only [if_true]
    exact ((stSort_pairwise (keepTiming_total now) (keepTiming_trans now) _).sublist
      (List.filter_sublist _))

/-- Claim C4: on a query with timing intent, an open record in the
rank_items output always precedes a closed record, even one with a
strictly higher score. -/
theorem C4_open_now_dominates (now : Now) (items : List Record)
    (query category zf lf sf df : Str)
    (ht : SearchPy.wantsTiming query = true)
    (i j : Fin (SearchPy.rank_items now items query category zf lf sf df).length)
    (hA : SearchPy.is_open_now now
      ((SearchPy.rank_items now items query category zf lf sf df).get i).2 = true)
    (hB : SearchPy.is_open_now now
      ((SearchPy.rank_items now items query category zf lf sf df).get j).2 = false)
    (hscore : ((SearchPy.rank_items now items query category zf lf sf df).get i).1.Lt
      ((SearchPy.rank_items now items query category zf lf sf df).get j).1) :
    (i : Nat) < (j : Nat) := by
  by_contra hij
  rcases Nat.lt_or_ge (j : Nat) (i : Nat) with hlt | hge
  · have hp := List.pairwise_iff_get.mp
      (rank_items_timing_pairwise now items query category zf lf sf df ht) j i hlt
    unfold SearchPy.keepTiming SearchPy.timingKey SearchPy.keyLeB at hp
    rw [hA, hB] at hp
    simp at hp
  · have hij' : (i : Nat) = (j : Nat) := by omega
    have : i = j := Fin.ext hij'
    subst this
    rw [hA] at hB
    exact absurd hB (by simp)

/-- Open record for the C4 witness (open Monday 9:00-17:00, lower score). -/
def recW4A : Record :=
  { recEmpty with
    rid := s2l "A"
    name := s2l "zz"
    searchBlob := s2l "open ab"
    hours := [(s2l "monday", [((9, 0), (17, 0))])] }

/-- Closed record for the C4 witness (no hours, higher score via name and
service-tag bonuses). -/
def recW4B : Record :=
  { recEmpty with
    rid := s2l "B"
    name := s2l "open ab"
    searchBlob := s2l "open ab"
    services := [s2l "ab", s2l "op", s2l "pen"] }

set_option maxRecDepth 100000 in
/-- Witness for C4: the open record (score 1.4) precedes the closed
record (score 1.65) on the timing query "open ab". -/
theorem C4_witness : (0 : Nat) < (1 : Nat) :=
  C4_open_now_dominates nowMon [recW4A, recW4B] (s2l "open ab") (s2l "x")
    (s2l "All") (s2l "All") (s2l "All") (s2l "All") (by decide)
    ⟨0, by decide⟩ ⟨1, by decide⟩ (by decide) (by decide) (by decide)

/-- The ZIP invariant as a boolean predicate: empty, or five digits
starting with "60" (the regex ^60\d{3}$). -/
def zipOkB (s : Str) : Bool :=
  decide (s = []) || (decide (s.length = 5) && hasPre (s2l "60") s && s.all Char.isDigit)

theorem zipOkB_nil : zipOkB [] = true := by decide

theorem zipAt_ok {t z : Str} (h : zipAt t = some z) : zipOkB z = true := by
  unfold zipAt at h
  split at h
  · next c1 c2 a b c rest =>
      by_cases hc : c1 = '6' ∧ c2 = '0' ∧ a.isDigit = true ∧ b.isDigit = true ∧
          c.isDigit = true ∧ bdyAfter rest = true
      · rw [if_pos hc] at h
        obtain ⟨h1, h2, h3, h4, h5, _⟩ := hc
        have hz := (Option.some.inj h).symm
        subst hz h1 h2
        have d6 : ('6' : Char).isDigit = true := by decide
        have d0 : ('0' : Char).isDigit = true := by decide
        simp [zipOkB, hasPre, d6, d0, h3, h4, h5]
      · rw [if_neg hc] at h
        exact absurd h (by simp)
  · exact absurd h (by simp)

theorem zipScan_ok : ∀ (t : Str) (pw : Bool) {z : Str},
    zipScan pw t = some z → zipOkB z = true := by
  intro t
  induction t with
  | nil => intro pw z h; simp [zipScan] at h
  | cons c cs ih =>
    intro pw z h
    unfold zipScan at h
    cases hb : pw
    · rw [hb] at h
      simp only [Bool.not_false, if_true] at h
      cases hza : zipAt (c :: cs) with
      | some v =>
          rw [hza] at h
          exact (Option.some.inj h) ▸ zipAt_ok hza
      | none =>
          rw [hza] at h
          exact ih _ h
    · rw [hb] at h
      simp only [Bool.not_true, Bool.false_eq_true, if_false] at h
      exact ih _ h

theorem normalize_zip_ok (s : Str) : zipOkB (DataLoader.normalize_zip s) = true := by
  unfold DataLoader.normalize_zip
  split_ifs with h
  · exact zipOkB_nil
  · cases hfz : findZip s with
    | some z => exact zipScan_ok s false hfz
    | none => exact zipOkB_nil

set_option maxHeartbeats 1000000 in
theorem procLine_zip (cat : Str) (r : Record) (line : Str)
    (h : zipOkB r.zipCode = true) :
    zipOkB (DataLoader.procLine cat r line).zipCode = true := by
  unfold DataLoader.procLine
  dsimp only
  split_ifs <;> first | exact h | exact normalize_zip_ok _

theorem foldl_procLine_zip (cat : Str) : ∀ (lines : List Str) (r : Record),
    zipOkB r.zipCode = true →
    zipOkB ((lines.foldl (DataLoader.procLine cat) r).zipCode) = true := by
  intro lines
  induction lines with
  | nil => intro r h; exact h
  | cons l ls ih => intro r h; exact ih _ (procLine_zip cat r l h)

theorem parseBlock_zip {cat : Str} {n : Nat} {b : Str} {r : Record}
    (h : DataLoader.parseBlock cat n b = some r) : zipOkB r.zipCode = true := by
  unfold DataLoader.parseBlock at h
  split at h
  · exact absurd h (by simp)
  · split_ifs at h with hr
    dsimp only at h
    have hz := Option.some.inj h
    subst hz
    exact foldl_procLine_zip cat _ _ zipOkB_nil

theorem parse_blocks_fold_zip (cat : Str) : ∀ (blocks : List Str) (acc : List Record),
    (∀ r ∈ acc, zipOkB r.zipCode = true) →
    ∀ r ∈ blocks.foldl
        (fun acc b =>
          if pyStrip b = [] then acc
          else
            match DataLoader.parseBlock cat acc.length b with
            | some nr => acc ++ [nr]
            | none => acc) acc,
      zipOkB r.zipCode = true := by
  intro blocks
  induction blocks with
  | nil => intro acc hacc r hr; exact hacc r hr
  | cons b bs ih =>
    intro acc hacc r hr
    simp only [List.foldl_cons] at hr
    refine ih _ ?_ r hr
    intro r' hr'
    split at hr'
    · exact hacc r' hr'
    · split at hr'
      · next nr heq =>
          rcases List.mem_append.mp hr' with hold | hnew
          · exact hacc r' hold
          · rw [List.mem_singleton.mp hnew]
            exact parseBlock_zip heq
      · exact hacc r' hr'

/-- Claim C9: every record produced by data_loader.parse_blocks has a
zip_code that is empty or a five-character string matching ^60\d{3}$. -/
theorem C9_zip_invariant (text cat : Str) :
    ∀ r ∈ DataLoader.parse_blocks text cat, zipOkB r.zipCode = true := by
  intro r hr
  unfold DataLoader.parse_blocks at hr
  exact parse_blocks_fold_zip cat _ [] (by simp) r hr

set_option maxRecDepth 100000 in
/-- Witness for C9 on a concrete raw listing with a Chicago address. -/
theorem C9_witness :
    zipOkB ((DataLoader.parse_blocks
      (s2l "1. Foo\n📍 123 Main St Chicago IL 60601\nPhone: 773-555-1234")
      (s2l "Healthcare")).headD recEmpty).zipCode = true :=
  C9_zip_invariant
    (s2l "1. Foo\n📍 123 Main St Chicago IL 60601\nPhone: 773-555-1234")
    (s2l "Healthcare") _ (by decide)

/-! ### C6: a day name that matches with no time tokens in the window -/

theorem lookup_filterMap_none (day : Str)
    (f : Str × List Str → Option (List TimeRange)) :
    ∀ (l : List (Str × List Str)),
    (∀ p ∈ l, p.1 = day → f p = none) →
    List.lookup day (l.filterMap (fun dp => (f dp).map (fun r => (dp.1, r)))) = none := by
  intro l
  induction l with
  | nil => intro _; rfl
  | cons q l ih =>
      intro h
      have htail : ∀ p ∈ l, p.1 = day → f p = none := by
        intro p hp hpd
        exact h p (List.mem_cons_of_mem _ hp) hpd
      cases hq : f q with
      | none =>
          simp only [List.filterMap_cons, hq, Option.map_none]
          exact ih htail
      | some r =>
          simp only [List.filterMap_cons, hq, Option.map_some]
          have hne : (day == q.1) = false := by
            cases hbe : day == q.1 with
            | false => rfl
            | true =>
                exfalso
                have hqd : q.1 = day := (eq_of_beq hbe).symm
                rw [h q (List.mem_cons_self q l) hqd] at hq
                exact Option.noConfusion hq
          simp only [List.lookup, hne]
          exact ih htail

/-- Claim C6 (amended): when a canonical day's pattern matches the
lowercased hours text but the 50-character window after the match end
holds no time token, parse_hours OMITS that day from the mapping (the
source inserts the key only under `if times:`), rather than binding it
to an empty range list. -/
theorem C6_amended_day_omitted (hoursText day : Str) (alts : List Str) (e : Nat)
    (hmem : (day, alts) ∈ DataLoader.DAY_PATTERNS)
    (hmatch : DataLoader.altSearchEnd alts (pyLower hoursText) = some e)
    (hempty : DataLoader.timeFindAll (((pyLower hoursText).drop e).take 50) = []) :
    List.lookup day (DataLoader.parse_hours hoursText) = none := by
  unfold DataLoader.parse_hours
  split_ifs with h0
  · rfl
  · apply lookup_filterMap_none
    intro p hp hpd
    have halts : p.2 = alts := by
      simp only [DataLoader.DAY_PATTERNS, List.mem_cons, List.not_mem_nil,
        or_false] at hp hmem
      rcases hmem with h1 | h1 | h1 | h1 | h1 | h1 | h1 <;>
        (injection h1 with hd ha; subst hd; subst ha) <;>
        rcases hp with h2 | h2 | h2 | h2 | h2 | h2 | h2 <;>
          subst h2 <;>
          first
            | rfl
            | exact absurd hpd (by decide)
    show DataLoader.dayEntry (pyLower hoursText) p.2 = none
    rw [halts]
    unfold DataLoader.dayEntry
    rw [hmatch]
    simp only [hempty, if_pos]

set_option maxRecDepth 10000 in
/-- Counterexample to C6 as stated: in "monday closed" the day name
monday matches (the pattern match ends at offset 6) and no time token
follows in the 50-character scan window, yet parse_hours omits the
monday key entirely instead of binding it to an empty list. -/
theorem C6_counterexample :
    DataLoader.altSearchEnd [s2l "mon", s2l "monday"]
      (pyLower (s2l "monday closed")) = some 6 ∧
    DataLoader.timeFindAll (((pyLower (s2l "monday closed")).drop 6).take 50) = [] ∧
    List.lookup (s2l "monday") (DataLoader.parse_hours (s2l "monday closed")) = none := by
  decide

set_option maxRecDepth 10000 in
/-- Witness for the amended C6 at hours text "monday closed": every
hypothesis holds there and the monday key is absent. -/
theorem C6_amended_witness :
    ((s2l "monday", [s2l "mon", s2l "monday"]) ∈ DataLoader.DAY_PATTERNS ∧
     DataLoader.altSearchEnd [s2l "mon", s2l "monday"]
       (pyLower (s2l "monday closed")) = some 6 ∧
     DataLoader.timeFindAll (((pyLower (s2l "monday closed")).drop 6).take 50) = []) ∧
    List.lookup (s2l "monday") (DataLoader.parse_hours (s2l "monday closed")) = none :=
  ⟨⟨by decide, by decide, by decide⟩,
   C6_amended_day_omitted (s2l "monday closed") (s2l "monday")
     [s2l "mon", s2l "monday"] 6 (by decide) (by decide) (by decide)⟩
